import Mathlib

/-!
Verification of the Squeeze2Diretta audio bridge against its
natural-language specification.

The development shallowly embeds the data plane of the bridge:

* `DirettaRingBuffer` — the lock-free SPSC audio ring of
  `src/diretta/DirettaRingBuffer.h`, with its position arithmetic
  (`size_t` wraparound subtraction followed by `& mask`), its push/pop
  operations, the in-place format conversions (S24 packing with
  alignment autodetection, 16→32/16→24 widening, DSD planar
  interleaving with bit-reverse / byte-swap), and the S24 pack-mode
  detection state machine.
* `DirettaSync` — the producer entry `sendAudio`, the consumer cycle
  callback `getNewStream` with its gating chain and the 44.1 kHz
  remainder accumulator, from `src/diretta/DirettaSync.cpp`.
* the DoP → native-DSD extraction loop of
  `src/squeeze2diretta-wrapper.cpp`.
* a `readUpTo` pipe reader modelled from the specification (that
  component's code is not part of the sources).

Bytes are modelled as `Nat` (values < 256 in every concrete input);
`size_t` values are `Nat` with arithmetic reduced modulo `2 ^ 64`
exactly where the C++ code can wrap.  Concurrency (atomics, the
reconfigure epoch, generation-counter caches) is sequentialised: each
operation is a function from state to state, and the atomic flags are
plain fields.
-/

/-- Subtraction of `size_t` values: `a - b` computed modulo `2 ^ 64`,
faithful to unsigned wraparound for `a b < 2 ^ 64`. -/
def wrapSub (a b : Nat) : Nat := (a + 2 ^ 64 - b) % 2 ^ 64

/-- S24 pack mode, `DirettaRingBuffer::S24PackMode`. -/
inductive S24PackMode
  | Unknown
  | LsbAligned
  | MsbAligned
  | Deferred
deriving DecidableEq

/-- DSD conversion mode, `DirettaRingBuffer::DSDConversionMode`. -/
inductive DSDConversionMode
  | Passthrough
  | BitReverseOnly
  | ByteSwapOnly
  | BitReverseAndSwap
deriving DecidableEq

/-- `DirettaRingBuffer` state: the byte buffer, the positions, the
silence byte and the S24 detection state.  `mask_` is derived
(`mask = size - 1`, the invariant established by `resize`). -/
structure DirettaRingBuffer where
  size : Nat
  buffer : List Nat
  writePos : Nat
  readPos : Nat
  silenceByte : Nat
  s24PackMode : S24PackMode
  s24Hint : S24PackMode
  s24DetectionConfirmed : Bool
  deferredSampleCount : Nat
deriving DecidableEq

/-- `STAGING_SIZE` (65536): size of the conversion staging buffers. -/
def STAGING_SIZE : Nat := 65536

/-- `DEFERRED_TIMEOUT_SAMPLES` (48000): all-zero sample count after
which the S24 detection commits. -/
def DEFERRED_TIMEOUT_SAMPLES : Nat := 48000

/-- The mask `size_ - 1` (ring sizes are powers of two). -/
def DirettaRingBuffer.mask (s : DirettaRingBuffer) : Nat := s.size - 1

/-- `getAvailable()`: `(wp - rp) & mask_` in `size_t` arithmetic. -/
def DirettaRingBuffer.getAvailable (s : DirettaRingBuffer) : Nat :=
  if s.size = 0 then 0
  else wrapSub s.writePos s.readPos &&& s.mask

/-- `getFreeSpace()`: `(rp - wp - 1) & mask_` in `size_t` arithmetic. -/
def DirettaRingBuffer.getFreeSpace (s : DirettaRingBuffer) : Nat :=
  if s.size = 0 then 0
  else wrapSub (wrapSub s.readPos s.writePos) 1 &&& s.mask

/-- `clear()`: reset positions and the whole S24 detection state. -/
def DirettaRingBuffer.clear (s : DirettaRingBuffer) : DirettaRingBuffer :=
  { s with writePos := 0, readPos := 0,
           s24PackMode := S24PackMode.Unknown,
           s24Hint := S24PackMode.Unknown,
           s24DetectionConfirmed := false,
           deferredSampleCount := 0 }

/-- `fillWithSilence()`: memset of the whole buffer with the silence byte. -/
def DirettaRingBuffer.fillWithSilence (s : DirettaRingBuffer) : DirettaRingBuffer :=
  { s with buffer := List.replicate s.size s.silenceByte }

/-- Doubling loop of `roundUpPow2`, with an explicit fuel bound
(`fuel = value` iterations are more than the loop can take, since the
result doubles from 1 every step). -/
def roundUpPow2Go (value : Nat) : Nat → Nat → Nat
  | 0, result => result
  | fuel + 1, result => if result < value then roundUpPow2Go value fuel (result * 2) else result

/-- `roundUpPow2`: the least power of two that is ≥ `value`, with floor 2. -/
def roundUpPow2 (value : Nat) : Nat :=
  if value < 2 then 2 else roundUpPow2Go value value 1

/-- `resize(newSize, silenceByte)`: round up to a power of two,
resize the byte vector (C++ `vector::resize` keeps the prefix and pads
with zeros), store the silence byte, `clear()`, then fill with silence. -/
def DirettaRingBuffer.resize (s : DirettaRingBuffer) (newSize silenceByte : Nat) :
    DirettaRingBuffer :=
  let sz := roundUpPow2 newSize
  (({ s with size := sz,
             buffer := s.buffer.take sz ++ List.replicate (sz - s.buffer.length) 0,
             silenceByte := silenceByte }).clear).fillWithSilence

/-- A default-constructed ring (`DirettaRingBuffer()`), before any `resize`. -/
def emptyRing : DirettaRingBuffer :=
  { size := 0, buffer := [], writePos := 0, readPos := 0, silenceByte := 0,
    s24PackMode := S24PackMode.Unknown, s24Hint := S24PackMode.Unknown,
    s24DetectionConfirmed := false, deferredSampleCount := 0 }

/-- Overwrite `data.length` bytes of `buf` starting at `pos`
(the effect of `memcpy(buf + pos, data, data.length)`). -/
def listOverwrite (buf : List Nat) (pos : Nat) (data : List Nat) : List Nat :=
  buf.take pos ++ data ++ buf.drop (pos + data.length)

/-- `getDirectWriteRegion(needed, …)` reduced to its boolean outcome:
whether a contiguous writable region of at least `needed` bytes exists. -/
def DirettaRingBuffer.getDirectWriteRegionOk (s : DirettaRingBuffer) (needed : Nat) : Bool :=
  if s.size = 0 || needed = 0 then false
  else
    let wp := s.writePos
    let rp := s.readPos
    let free := if rp > wp then rp - wp - 1 else s.size - wp + rp - 1
    if free < needed then false
    else
      let contiguous := if rp ≤ wp then s.size - wp else rp - wp - 1
      decide (contiguous ≥ needed)

/-- `push(data, len)`: truncate to free space, then copy either through
the contiguous fast path or the two-chunk wraparound path.  The input
buffer and its length are modelled as one byte list. -/
def DirettaRingBuffer.push (s : DirettaRingBuffer) (data : List Nat) :
    DirettaRingBuffer × Nat :=
  if s.size = 0 then (s, 0)
  else
    let free := s.getFreeSpace
    let len := min data.length free
    if len = 0 then (s, 0)
    else if s.getDirectWriteRegionOk len then
      ({ s with buffer := listOverwrite s.buffer s.writePos (data.take len),
                writePos := (s.writePos + len) &&& s.mask }, len)
    else
      let wp := s.writePos
      let firstChunk := min len (s.size - wp)
      let buf1 := listOverwrite s.buffer wp (data.take firstChunk)
      let buf2 := if firstChunk < len
                  then listOverwrite buf1 0 ((data.take len).drop firstChunk)
                  else buf1
      ({ s with buffer := buf2, writePos := (wp + len) &&& s.mask }, len)

/-- The free-space computation `writeToRing` performs inline:
`(rp > wp) ? (rp - wp - 1) : (size - wp + rp - 1)`. -/
def ringAvailableForWrite (size wp rp : Nat) : Nat :=
  if rp > wp then rp - wp - 1 else size - wp + rp - 1

/-- `writeToRing(staged, len)`: copy staged conversion output into the
ring, truncated to the free space, advancing the write position. -/
def DirettaRingBuffer.writeToRing (s : DirettaRingBuffer) (staged : List Nat) :
    DirettaRingBuffer × Nat :=
  let size := s.buffer.length
  if size = 0 || staged.length = 0 then (s, 0)
  else
    let wp := s.writePos
    let rp := s.readPos
    let available := ringAvailableForWrite size wp rp
    let len := min staged.length available
    if len = 0 then (s, 0)
    else
      let firstChunk := min len (size - wp)
      let buf1 := listOverwrite s.buffer wp (staged.take firstChunk)
      let buf2 := if firstChunk < len
                  then listOverwrite buf1 0 ((staged.take len).drop firstChunk)
                  else buf1
      ({ s with buffer := buf2, writePos := (wp + len) &&& s.mask }, len)

/-- `pop(dest, len)`: read with wraparound, truncated to the available
data; returns the new state and the bytes read. -/
def DirettaRingBuffer.pop (s : DirettaRingBuffer) (len : Nat) :
    DirettaRingBuffer × List Nat :=
  if s.size = 0 then (s, [])
  else
    let avail := s.getAvailable
    let len := min len avail
    if len = 0 then (s, [])
    else
      let rp := s.readPos
      let firstChunk := min len (s.size - rp)
      let dest := (s.buffer.drop rp).take firstChunk ++ s.buffer.take (len - firstChunk)
      ({ s with readPos := (rp + len) &&& s.mask }, dest)

/-- Well-formedness established by `resize`: the size is a power of two
that a `size_t` can hold (so it divides `2 ^ 64`), the positions are in
range, and the byte vector has exactly `size` bytes. -/
def DirettaRingBuffer.WF (s : DirettaRingBuffer) : Prop :=
  (∃ k, k ≤ 64 ∧ s.size = 2 ^ k) ∧
  s.writePos < s.size ∧ s.readPos < s.size ∧ s.buffer.length = s.size

/-! Arithmetic helper lemmas for the `& mask` position arithmetic. -/

theorem land_mask_eq_mod (s : DirettaRingBuffer) (k : Nat) (h : s.size = 2 ^ k)
    (x : Nat) : x &&& s.mask = x % s.size := by
  unfold DirettaRingBuffer.mask
  conv_lhs => rw [h]
  conv_rhs => rw [h]
  exact Nat.and_pow_two_sub_one_eq_mod x k

theorem wf_size_dvd (s : DirettaRingBuffer) (h : s.WF) : s.size ∣ 2 ^ 64 := by
  obtain ⟨⟨k, hk, hpow⟩, _, _, _⟩ := h
  rw [hpow]
  exact pow_dvd_pow 2 hk

theorem wrapSub_eq_of_le (a b : Nat) (ha : a < 2 ^ 64) (h : b ≤ a) :
    wrapSub a b = a - b := by
  unfold wrapSub
  have h1 : a + 2 ^ 64 - b = (a - b) + 2 ^ 64 := by omega
  rw [h1, Nat.add_mod_right]
  exact Nat.mod_eq_of_lt (by omega)

theorem wrapSub_eq_of_gt (a b : Nat) (_hb : b ≤ 2 ^ 64) (h : a < b) :
    wrapSub a b = a + 2 ^ 64 - b := by
  unfold wrapSub
  exact Nat.mod_eq_of_lt (by omega)

theorem add_two_pow_sub_size_mod (size x : Nat) (hd : size ∣ 2 ^ 64) (hs : 0 < size) :
    (x + (2 ^ 64 - size)) % size = x % size := by
  obtain ⟨m, hm⟩ := hd
  have hm1 : 1 ≤ m := by
    rcases Nat.eq_zero_or_pos m with h0 | h1
    · rw [h0, Nat.mul_zero] at hm; exact absurd hm (by norm_num)
    · exact h1
  have key : 2 ^ 64 - size = size * (m - 1) := by
    have h2 : size * (m - 1) = size * m - size := by
      cases m with
      | zero => omega
      | succ k => simp [Nat.mul_succ]
    omega
  rw [key, Nat.add_mul_mod_self_left]

theorem getAvailable_eq (s : DirettaRingBuffer) (h : s.WF) :
    s.getAvailable = (s.writePos + s.size - s.readPos) % s.size := by
  have hdvd := wf_size_dvd s h
  obtain ⟨⟨k, hk, hpow⟩, hwp, hrp, hlen⟩ := h
  have hs : 0 < s.size := lt_of_le_of_lt (Nat.zero_le _) hwp
  have hsize64 : s.size ≤ 2 ^ 64 := Nat.le_of_dvd (by norm_num) hdvd
  unfold DirettaRingBuffer.getAvailable
  rw [if_neg (Nat.pos_iff_ne_zero.mp hs), land_mask_eq_mod s k hpow]
  by_cases hc : s.readPos ≤ s.writePos
  · rw [wrapSub_eq_of_le _ _ (by omega) hc]
    have h1 : s.writePos + s.size - s.readPos = (s.writePos - s.readPos) + s.size := by omega
    rw [h1, Nat.add_mod_right]
  · push_neg at hc
    rw [wrapSub_eq_of_gt _ _ (by omega) hc]
    have h1 : s.writePos + 2 ^ 64 - s.readPos
        = (s.writePos + s.size - s.readPos) + (2 ^ 64 - s.size) := by omega
    rw [h1, add_two_pow_sub_size_mod _ _ hdvd hs]

theorem getFreeSpace_eq (s : DirettaRingBuffer) (h : s.WF) :
    s.getFreeSpace = (s.readPos + s.size - s.writePos - 1) % s.size := by
  have hdvd := wf_size_dvd s h
  obtain ⟨⟨k, hk, hpow⟩, hwp, hrp, hlen⟩ := h
  have hs : 0 < s.size := lt_of_le_of_lt (Nat.zero_le _) hwp
  have hsize64 : s.size ≤ 2 ^ 64 := Nat.le_of_dvd (by norm_num) hdvd
  unfold DirettaRingBuffer.getFreeSpace
  rw [if_neg (Nat.pos_iff_ne_zero.mp hs), land_mask_eq_mod s k hpow]
  by_cases hc : s.writePos ≤ s.readPos
  · rw [wrapSub_eq_of_le _ _ (by omega) hc]
    by_cases hz : s.readPos - s.writePos = 0
    · rw [hz]
      have h0 : wrapSub 0 1 = (s.size - 1) + (2 ^ 64 - s.size) := by
        unfold wrapSub
        rw [Nat.zero_add, Nat.mod_eq_of_lt (by omega)]
        omega
      rw [h0, add_two_pow_sub_size_mod _ _ hdvd hs]
      have h2 : s.readPos + s.size - s.writePos - 1 = s.size - 1 := by omega
      rw [h2]
    · rw [wrapSub_eq_of_le _ _ (by omega) (by omega)]
      have h2 : s.readPos + s.size - s.writePos - 1
          = (s.readPos - s.writePos - 1) + s.size := by omega
      rw [h2, Nat.add_mod_right]
  · push_neg at hc
    rw [wrapSub_eq_of_gt _ _ (by omega) hc]
    rw [wrapSub_eq_of_le _ _ (by omega) (by omega)]
    have h2 : s.readPos + 2 ^ 64 - s.writePos - 1
        = (s.readPos + s.size - s.writePos - 1) + (2 ^ 64 - s.size) := by omega
    rw [h2, add_two_pow_sub_size_mod _ _ hdvd hs]

theorem push_snd_eq (s : DirettaRingBuffer) (data : List Nat) (h : 0 < s.size) :
    (s.push data).2 = min data.length s.getFreeSpace := by
  unfold DirettaRingBuffer.push
  split
  · next hsz => exact absurd hsz (by omega)
  · dsimp only
    split
    · next hz => exact hz.symm
    · split <;> rfl

/-- C1.  For a well-formed (nonzero-size) ring, `getAvailable` is the
wraparound distance `(writePos − readPos) & mask` in its arithmetic
normal form, `getFreeSpace` is `(readPos − writePos − 1) & mask`
likewise, `push` returns exactly `min(len, free)` where `free` is the
free space at entry (never more than requested), and a short return
`w < len` certifies that the free space observed at entry was `w`. -/
theorem C1_ring_counters_and_push (s : DirettaRingBuffer) (data : List Nat)
    (h : s.WF) :
    s.getAvailable = (s.writePos + s.size - s.readPos) % s.size ∧
    s.getFreeSpace = (s.readPos + s.size - s.writePos - 1) % s.size ∧
    (s.push data).2 = min data.length s.getFreeSpace ∧
    ((s.push data).2 < data.length → s.getFreeSpace = (s.push data).2) := by
  have hs : 0 < s.size := by
    obtain ⟨hpow, hwp, hrp, hlen⟩ := h
    exact lt_of_le_of_lt (Nat.zero_le _) hwp
  refine ⟨getAvailable_eq s h, getFreeSpace_eq s h, push_snd_eq s data hs, ?_⟩
  intro hlt
  rw [push_snd_eq s data hs] at hlt ⊢
  omega

/-- Witness for C1 at a concrete ring: a freshly resized ring of size 16
with one byte pushed. -/
theorem C1_ring_counters_and_push_witness :
    (emptyRing.resize 16 0).WF ∧
    ((emptyRing.resize 16 0).push [1, 2, 3]).2
      = min 3 (emptyRing.resize 16 0).getFreeSpace :=
  have hwf : (emptyRing.resize 16 0).WF :=
    ⟨⟨4, by norm_num, by decide⟩, by decide, by decide, by decide⟩
  ⟨hwf, (C1_ring_counters_and_push (emptyRing.resize 16 0) [1, 2, 3] hwf).2.2.1⟩

/-! Format conversions of `DirettaRingBuffer.h`.  The AVX2 paths compute
the same byte permutation as their scalar tails; the scalar loops are
the reference embedded here. -/

/-- `detectS24PackMode`: scan up to the first 64 samples, testing the
LSB position (byte 0) and the MSB position (byte 3) of each 32-bit
container for being all zero. -/
def detectS24PackMode (data : List Nat) (numSamples : Nat) : S24PackMode :=
  let checkSamples := min numSamples 64
  let allZeroLSB := (List.range checkSamples).all (fun i => data.getD (i * 4) 0 == 0)
  let allZeroMSB := (List.range checkSamples).all (fun i => data.getD (i * 4 + 3) 0 == 0)
  if !allZeroLSB && allZeroMSB then S24PackMode.LsbAligned
  else if allZeroLSB && !allZeroMSB then S24PackMode.MsbAligned
  else if allZeroLSB && allZeroMSB then S24PackMode.Deferred
  else S24PackMode.LsbAligned

/-- The hybrid S24 detection block at the top of `push24BitPacked`:
re-run detection while the mode is Unknown/Deferred (or a hint was
applied but not confirmed); a non-deferred result commits and confirms;
deferred results accumulate the sample count until the timeout commits
to the hint (if set) else LSB. -/
def DirettaRingBuffer.s24DetectUpdate (s : DirettaRingBuffer) (data : List Nat)
    (numSamples : Nat) : DirettaRingBuffer :=
  if s.s24PackMode = S24PackMode.Unknown ∨ s.s24PackMode = S24PackMode.Deferred ∨
     (s.s24PackMode = s.s24Hint ∧ s.s24DetectionConfirmed = false) then
    let detected := detectS24PackMode data numSamples
    if detected ≠ S24PackMode.Deferred then
      { s with s24PackMode := detected, s24DetectionConfirmed := true,
               deferredSampleCount := 0 }
    else
      let cnt := s.deferredSampleCount + numSamples
      if cnt > DEFERRED_TIMEOUT_SAMPLES then
        { s with deferredSampleCount := cnt,
                 s24PackMode := if s.s24Hint ≠ S24PackMode.Unknown then s.s24Hint
                                else S24PackMode.LsbAligned,
                 s24DetectionConfirmed := true }
      else { s with deferredSampleCount := cnt }
  else s

/-- `convert24BitPacked_AVX2` (scalar reference): per sample take input
bytes 0,1,2 of the 4-byte container. -/
def convert24BitPacked (src : List Nat) (numSamples : Nat) : List Nat :=
  (List.range numSamples).flatMap (fun i =>
    [src.getD (i * 4) 0, src.getD (i * 4 + 1) 0, src.getD (i * 4 + 2) 0])

/-- `convert24BitPackedShifted_AVX2` (scalar reference): per sample take
input bytes 1,2,3 of the 4-byte container. -/
def convert24BitPackedShifted (src : List Nat) (numSamples : Nat) : List Nat :=
  (List.range numSamples).flatMap (fun i =>
    [src.getD (i * 4 + 1) 0, src.getD (i * 4 + 2) 0, src.getD (i * 4 + 3) 0])

/-- `convert16To32_AVX2` (scalar reference): per sample emit
`[0, 0, b0, b1]`. -/
def convert16To32 (src : List Nat) (numSamples : Nat) : List Nat :=
  (List.range numSamples).flatMap (fun i =>
    [0, 0, src.getD (i * 2) 0, src.getD (i * 2 + 1) 0])

/-- `convert16To24`: per sample emit `[0, b0, b1]`. -/
def convert16To24 (src : List Nat) (numSamples : Nat) : List Nat :=
  (List.range numSamples).flatMap (fun i =>
    [0, src.getD (i * 2) 0, src.getD (i * 2 + 1) 0])

/-- `push24BitPacked`: S24-in-S32 input; clamp the sample count to the
staging buffer and the free space, run the detection machine, pack via
the staging buffer, copy to the ring, return input bytes consumed. -/
def DirettaRingBuffer.push24BitPacked (s : DirettaRingBuffer) (data : List Nat) :
    DirettaRingBuffer × Nat :=
  if s.size = 0 then (s, 0)
  else
    let numSamples0 := data.length / 4
    if numSamples0 = 0 then (s, 0)
    else
      let numSamples := min (min numSamples0 (STAGING_SIZE / 3)) (s.getFreeSpace / 3)
      if numSamples = 0 then (s, 0)
      else
        let s1 := s.s24DetectUpdate data numSamples
        let effectiveMode :=
          if s1.s24PackMode = S24PackMode.Deferred ∨ s1.s24PackMode = S24PackMode.Unknown
          then (if s1.s24Hint ≠ S24PackMode.Unknown then s1.s24Hint else S24PackMode.LsbAligned)
          else s1.s24PackMode
        let staged := if effectiveMode = S24PackMode.MsbAligned
                      then convert24BitPackedShifted data numSamples
                      else convert24BitPacked data numSamples
        let r := s1.writeToRing staged
        (r.1, r.2 / 3 * 4)

/-- `push16To32`: widen S16 LE samples to 32-bit containers. -/
def DirettaRingBuffer.push16To32 (s : DirettaRingBuffer) (data : List Nat) :
    DirettaRingBuffer × Nat :=
  if s.size = 0 then (s, 0)
  else
    let numSamples0 := data.length / 2
    if numSamples0 = 0 then (s, 0)
    else
      let numSamples := min (min numSamples0 (STAGING_SIZE / 4)) (s.getFreeSpace / 4)
      if numSamples = 0 then (s, 0)
      else
        let r := s.writeToRing (convert16To32 data numSamples)
        (r.1, r.2 / 4 * 2)

/-- `push16To24`: widen S16 LE samples to packed 24-bit. -/
def DirettaRingBuffer.push16To24 (s : DirettaRingBuffer) (data : List Nat) :
    DirettaRingBuffer × Nat :=
  if s.size = 0 then (s, 0)
  else
    let numSamples0 := data.length / 2
    if numSamples0 = 0 then (s, 0)
    else
      let numSamples := min (min numSamples0 (STAGING_SIZE / 3)) (s.getFreeSpace / 3)
      if numSamples = 0 then (s, 0)
      else
        let r := s.writeToRing (convert16To24 data numSamples)
        (r.1, r.2 / 3 * 2)

/-- `kBitReverseLUT`: the 256-entry bit-reversal table, expressed as the
bit-reversal of the 8 bits of its index. -/
def kBitReverseLUT (b : Nat) : Nat :=
  b % 2 * 128 + b / 2 % 2 * 64 + b / 4 % 2 * 32 + b / 8 % 2 * 16 +
  b / 16 % 2 * 8 + b / 32 % 2 * 4 + b / 64 % 2 * 2 + b / 128 % 2

/-- `convertDSD_Passthrough` (scalar reference): interleave 4-byte
groups channel by channel, no transformation. -/
def convertDSD_Passthrough (src : List Nat) (totalInputBytes numChannels : Nat) :
    List Nat :=
  let bytesPerChannel := totalInputBytes / numChannels
  (List.range ((bytesPerChannel + 3) / 4)).flatMap (fun g =>
    (List.range numChannels).flatMap (fun ch =>
      let chOffset := ch * bytesPerChannel
      let i := g * 4
      [src.getD (chOffset + i) 0, src.getD (chOffset + i + 1) 0,
       src.getD (chOffset + i + 2) 0, src.getD (chOffset + i + 3) 0]))

/-- `convertDSD_BitReverse` (scalar reference): interleave with the
bit-reverse LUT applied to every byte. -/
def convertDSD_BitReverse (src : List Nat) (totalInputBytes numChannels : Nat) :
    List Nat :=
  let bytesPerChannel := totalInputBytes / numChannels
  (List.range ((bytesPerChannel + 3) / 4)).flatMap (fun g =>
    (List.range numChannels).flatMap (fun ch =>
      let chOffset := ch * bytesPerChannel
      let i := g * 4
      [kBitReverseLUT (src.getD (chOffset + i) 0),
       kBitReverseLUT (src.getD (chOffset + i + 1) 0),
       kBitReverseLUT (src.getD (chOffset + i + 2) 0),
       kBitReverseLUT (src.getD (chOffset + i + 3) 0)]))

/-- `convertDSD_ByteSwap` (scalar reference): interleave with each
4-byte group reversed. -/
def convertDSD_ByteSwap (src : List Nat) (totalInputBytes numChannels : Nat) :
    List Nat :=
  let bytesPerChannel := totalInputBytes / numChannels
  (List.range ((bytesPerChannel + 3) / 4)).flatMap (fun g =>
    (List.range numChannels).flatMap (fun ch =>
      let chOffset := ch * bytesPerChannel
      let i := g * 4
      [src.getD (chOffset + i + 3) 0, src.getD (chOffset + i + 2) 0,
       src.getD (chOffset + i + 1) 0, src.getD (chOffset + i) 0]))

/-- `convertDSD_BitReverseSwap` (scalar reference): bit reversal and
group byte swap combined. -/
def convertDSD_BitReverseSwap (src : List Nat) (totalInputBytes numChannels : Nat) :
    List Nat :=
  let bytesPerChannel := totalInputBytes / numChannels
  (List.range ((bytesPerChannel + 3) / 4)).flatMap (fun g =>
    (List.range numChannels).flatMap (fun ch =>
      let chOffset := ch * bytesPerChannel
      let i := g * 4
      [kBitReverseLUT (src.getD (chOffset + i + 3) 0),
       kBitReverseLUT (src.getD (chOffset + i + 2) 0),
       kBitReverseLUT (src.getD (chOffset + i + 1) 0),
       kBitReverseLUT (src.getD (chOffset + i) 0)]))

/-- The input-clamping computation of `pushDSDPlanarOptimized`: clamp to
the staging buffer and the free space, then keep only complete
4-byte-per-channel groups. -/
def dsdUsableInput (s : DirettaRingBuffer) (dataLen numChannels : Nat) : Nat :=
  let maxBytes := min (min dataLen STAGING_SIZE) s.getFreeSpace
  let bytesPerChannel := maxBytes / numChannels
  let completeGroups := bytesPerChannel / 4
  completeGroups * 4 * numChannels

/-- `pushDSDPlanarOptimized`: clamp to the staging buffer and the free
space, keep only complete 4-byte-per-channel groups, convert per the
pre-selected mode, copy to the ring. -/
def DirettaRingBuffer.pushDSDPlanarOptimized (s : DirettaRingBuffer) (data : List Nat)
    (numChannels : Nat) (mode : DSDConversionMode) : DirettaRingBuffer × Nat :=
  if s.size = 0 then (s, 0)
  else if numChannels = 0 then (s, 0)
  else
    let usableInput := dsdUsableInput s data.length numChannels
    if usableInput = 0 then (s, 0)
    else
      let staged :=
        match mode with
        | DSDConversionMode.Passthrough => convertDSD_Passthrough data usableInput numChannels
        | DSDConversionMode.BitReverseOnly => convertDSD_BitReverse data usableInput numChannels
        | DSDConversionMode.ByteSwapOnly => convertDSD_ByteSwap data usableInput numChannels
        | DSDConversionMode.BitReverseAndSwap => convertDSD_BitReverseSwap data usableInput numChannels
      s.writeToRing staged

/-! DoP → native DSD extraction, from the steady-state conversion loop
of `src/squeeze2diretta-wrapper.cpp` (the burst-fill loop performs the
identical per-frame moves).  The planar output vector is represented as
the channel-0 stream followed by the channel-1 stream; the loop writes
frame `f` of the left channel to offsets `2f, 2f+1` of the channel-0
stream and of the right channel to the same offsets of the channel-1
stream. -/

/-- Channel-0 planar stream of the DoP conversion: for each stereo
frame, source bytes 2 (DSD MSB) then 1 (DSD LSB). -/
def dopPlanarCh0 (buffer : List Nat) : Nat → List Nat
  | 0 => []
  | n + 1 => dopPlanarCh0 buffer n ++
      [buffer.getD (8 * n + 2) 0, buffer.getD (8 * n + 1) 0]

/-- Channel-1 planar stream of the DoP conversion: for each stereo
frame, source bytes 6 then 5. -/
def dopPlanarCh1 (buffer : List Nat) : Nat → List Nat
  | 0 => []
  | n + 1 => dopPlanarCh1 buffer n ++
      [buffer.getD (8 * n + 6) 0, buffer.getD (8 * n + 5) 0]

/-- The full planar buffer produced by the DoP conversion loop:
channel-0 stream at offset 0, channel-1 stream at `bytes_per_channel`. -/
def dopToPlanarDSD (buffer : List Nat) (numFrames : Nat) : List Nat :=
  dopPlanarCh0 buffer numFrames ++ dopPlanarCh1 buffer numFrames

/-! The headered pipe reader.  Its code is not part of the sources under
`src/`; the definitions below are modelled from the specification
(§4.4): an internal buffered region, `peek(n)` exposing the next bytes
without consuming, and `read_up_to(n)` returning at most `n` bytes while
never crossing an embedded `SQFH` magic at a positive offset. -/

/-- The 4-byte magic "SQFH". -/
def sqfhMagic : List Nat := [0x53, 0x51, 0x46, 0x48]

/-- Modelled from the spec: scan of `read_up_to` for the magic.  `l` is
the suffix of the slice starting at offset `k`; the result is the first
offset ≥ `k` at which the full 4-byte magic occurs. -/
def findMagicFrom : List Nat → Nat → Option Nat
  | [], _ => none
  | b :: rest, k =>
    if (b :: rest).take 4 = sqfhMagic then some k
    else findMagicFrom rest (k + 1)

/-- Modelled from the spec: find the magic in a slice, skipping byte 0
(which `peek` already cleared). -/
def findMagicInSlice (slice : List Nat) : Option Nat :=
  match slice with
  | [] => none
  | _ :: rest => findMagicFrom rest 1

/-- Modelled from the spec: `peek(n)` — the next `n` bytes of the
buffered region, not consumed. -/
def pipePeek (buffered : List Nat) (n : Nat) : List Nat := buffered.take n

/-- Modelled from the spec: `read_up_to(n)` — at most `n` bytes from the
buffered region; if the magic occurs at offset `k > 0` inside the slice
that would be returned, the slice is truncated to length `k`.  Returns
the bytes read and the remaining buffered region. -/
def readUpTo (buffered : List Nat) (n : Nat) : List Nat × List Nat :=
  let slice := buffered.take n
  match findMagicInSlice slice with
  | some k => (slice.take k, buffered.drop k)
  | none => (slice, buffered.drop slice.length)

/-! `DirettaSync`, sequentialised: the fields mirror the `m_…` atomics
and plain members used by `sendAudio` and `getNewStream`.  The
generation-counter caches are collapsed (cached value = live value), and
the `RingAccessGuard` is the `reconfiguring` test. -/

structure DirettaSync where
  ring : DirettaRingBuffer
  prefillComplete : Bool
  prefillTarget : Nat
  draining : Bool
  stopRequested : Bool
  online : Bool
  reconfiguring : Bool
  silenceBuffersRemaining : Nat
  postOnlineDelayDone : Bool
  stabilizationCount : Nat
  bytesPerBuffer : Nat
  bytesPerFrame : Nat
  framesPerBufferRemainder : Nat
  framesPerBufferAccumulator : Nat
  isDsdMode : Bool
  need24BitPack : Bool
  need16To32Upsample : Bool
  need16To24Upsample : Bool
  channels : Nat
  bytesPerSample : Nat
  dsdConversionMode : DSDConversionMode
  underrunCount : Nat

/-- `sendAudio(data, numSamples)`: non-blocking producer entry.  Gated
(returns 0, state unchanged) when draining, when stop is requested, when
not online, or when the ring-access guard is inactive; otherwise
dispatches to the ring push selected by the cached format and finally
checks prefill completion against the bytes now available.
`sendAudioDispatch` is the per-format ring-push dispatch in its middle;
the `data` list models the input pointer, and each branch passes the
byte count the code derives from `numSamples` for that format. -/
def DirettaSync.sendAudioDispatch (s : DirettaSync) (data : List Nat)
    (numSamples : Nat) : DirettaRingBuffer × Nat :=
  if s.isDsdMode then
    s.ring.pushDSDPlanarOptimized (data.take (numSamples * s.channels / 8))
      s.channels s.dsdConversionMode
  else if s.need24BitPack then
    s.ring.push24BitPacked (data.take (numSamples * (4 * s.channels)))
  else if s.need16To32Upsample then
    s.ring.push16To32 (data.take (numSamples * (2 * s.channels)))
  else if s.need16To24Upsample then
    s.ring.push16To24 (data.take (numSamples * (2 * s.channels)))
  else
    s.ring.push (data.take (numSamples * (s.bytesPerSample * s.channels)))

def DirettaSync.sendAudio (s : DirettaSync) (data : List Nat) (numSamples : Nat) :
    DirettaSync × Nat :=
  if s.draining then (s, 0)
  else if s.stopRequested then (s, 0)
  else if !s.online then (s, 0)
  else if s.reconfiguring then (s, 0)
  else
    let r := s.sendAudioDispatch data numSamples
    let s1 := { s with ring := r.1 }
    if r.2 > 0 ∧ s1.prefillComplete = false ∧ r.1.getAvailable ≥ s1.prefillTarget then
      ({ s1 with prefillComplete := true }, r.2)
    else (s1, r.2)

/-- Cycle buffer size for the current `getNewStream` call: the base
`bytesPerBuffer` plus one extra frame when the remainder accumulator
wraps at 1000. -/
def DirettaSync.cycleBpb (s : DirettaSync) : Nat :=
  if s.framesPerBufferRemainder ≠ 0 ∧
     s.framesPerBufferAccumulator + s.framesPerBufferRemainder ≥ 1000
  then s.bytesPerBuffer + s.bytesPerFrame
  else s.bytesPerBuffer

/-- Remainder accumulator value after the current `getNewStream` call. -/
def DirettaSync.cycleAcc (s : DirettaSync) : Nat :=
  if s.framesPerBufferRemainder = 0 then s.framesPerBufferAccumulator
  else if s.framesPerBufferAccumulator + s.framesPerBufferRemainder ≥ 1000
  then s.framesPerBufferAccumulator + s.framesPerBufferRemainder - 1000
  else s.framesPerBufferAccumulator + s.framesPerBufferRemainder

/-- `getNewStream`: one consumer cycle.  Updates the remainder
accumulator, then walks the gating chain — ring guard inactive, shutdown
silence, stop requested, prefill pending, post-online stabilisation —
emitting a cycle buffer full of the silence byte at each gate; otherwise
counts an underrun (silence) or pops exactly one cycle buffer from the
ring.  `stabilizationTarget` is the stabilisation cycle count computed
by the code (its DSD branch uses floating-point MTU arithmetic, so it is
passed in as a parameter here). -/
def DirettaSync.getNewStream (s : DirettaSync) (stabilizationTarget : Nat) :
    DirettaSync × List Nat :=
  let bpb := s.cycleBpb
  let s := { s with framesPerBufferAccumulator := s.cycleAcc }
  let silence := List.replicate bpb s.ring.silenceByte
  if s.reconfiguring then (s, silence)
  else if s.silenceBuffersRemaining > 0 then
    ({ s with silenceBuffersRemaining := s.silenceBuffersRemaining - 1 }, silence)
  else if s.stopRequested then (s, silence)
  else if s.prefillComplete = false then (s, silence)
  else if s.postOnlineDelayDone = false then
    if s.stabilizationCount + 1 ≥ stabilizationTarget then
      ({ s with postOnlineDelayDone := true, stabilizationCount := 0 }, silence)
    else ({ s with stabilizationCount := s.stabilizationCount + 1 }, silence)
  else if s.ring.getAvailable < bpb then
    ({ s with underrunCount := s.underrunCount + 1 }, silence)
  else
    let r := s.ring.pop bpb
    ({ s with ring := r.1 }, r.2)

/-- The quick-resume reset of `DirettaSync::open` (same-format path):
clear the ring and re-arm the prefill gate. -/
def DirettaSync.quickResumeReset (s : DirettaSync) : DirettaSync :=
  { s with ring := s.ring.clear, prefillComplete := false,
           stabilizationCount := 0, stopRequested := false,
           draining := false, silenceBuffersRemaining := 0 }

/-- Iterate `getNewStream` for `n` cycles, summing the bytes requested
(the length of each cycle buffer). -/
def runProduceCycles (stab : Nat) : Nat → DirettaSync → DirettaSync × Nat
  | 0, s => (s, 0)
  | n + 1, s =>
    let r := s.getNewStream stab
    let rest := runProduceCycles stab n r.1
    (rest.1, r.2.length + rest.2)

/-- The PCM cycle-size parameters of `configureRingPCM`:
`(bytesPerBuffer, bytesPerFrame, framesRemainder)` for a given rate,
channel count and Diretta bytes per sample. -/
def pcmCycleParams (rate channels direttaBps : Nat) : Nat × Nat × Nat :=
  let bytesPerFrame := channels * direttaBps
  let framesBase := rate / 1000
  let framesRemainder := rate % 1000
  (framesBase * bytesPerFrame, bytesPerFrame, framesRemainder)

/-! `AudioFormat` of `DirettaSync.h` and the same-format test of
`DirettaSync::open`. -/

/-- `AudioFormat::DSDFormat`. -/
inductive AudioDSDFormat
  | DSF
  | DFF
deriving DecidableEq

/-- `AudioFormat`: the per-track format descriptor. -/
structure AudioFormat where
  sampleRate : Nat := 44100
  bitDepth : Nat := 16
  channels : Nat := 2
  isDSD : Bool := false
  isCompressed : Bool := false
  dsdFormat : AudioDSDFormat := AudioDSDFormat.DSF

/-- `AudioFormat::operator==`: compares only `sampleRate`, `bitDepth`,
`channels` and `isDSD`. -/
def AudioFormat.beq (a b : AudioFormat) : Bool :=
  a.sampleRate == b.sampleRate && a.bitDepth == b.bitDepth &&
  a.channels == b.channels && a.isDSD == b.isDSD

/-- The `sameFormat` test of `DirettaSync::open` (fast path selection):
field-by-field comparison of the previous and the new format on the
same four fields. -/
def sameFormatCheck (prev cur : AudioFormat) : Bool :=
  prev.sampleRate == cur.sampleRate && prev.bitDepth == cur.bitDepth &&
  prev.channels == cur.channels && prev.isDSD == cur.isDSD

/-- The quick-resume decision of `DirettaSync::open`: already open, a
previous format is recorded, and the same-format test passes. -/
def openTakesQuickResume (isOpen hasPreviousFormat : Bool)
    (prev cur : AudioFormat) : Bool :=
  isOpen && hasPreviousFormat && sameFormatCheck prev cur

/-! General helper lemmas. -/

theorem flatMap_range_const_length (n c : Nat) (f : Nat → List Nat)
    (hf : ∀ i, (f i).length = c) :
    ((List.range n).flatMap f).length = n * c := by
  induction n with
  | zero => simp
  | succ m ih =>
    rw [List.range_succ, List.flatMap_append, List.length_append, ih, Nat.succ_mul]
    simp [hf]

theorem getFreeSpace_cases (s : DirettaRingBuffer) (h : s.WF) :
    s.getFreeSpace = if s.readPos > s.writePos then s.readPos - s.writePos - 1
                     else s.size - s.writePos + s.readPos - 1 := by
  rw [getFreeSpace_eq s h]
  obtain ⟨⟨k, hk, hpow⟩, hwp, hrp, hlen⟩ := h
  split
  · next hgt =>
    have he : s.readPos + s.size - s.writePos - 1 = (s.readPos - s.writePos - 1) + s.size := by
      omega
    rw [he, Nat.add_mod_right, Nat.mod_eq_of_lt (by omega)]
  · next hle =>
    have he : s.readPos + s.size - s.writePos - 1 = s.size - s.writePos + s.readPos - 1 := by
      omega
    rw [he, Nat.mod_eq_of_lt (by omega)]

theorem getAvailable_lt (s : DirettaRingBuffer) (h : s.WF) : s.getAvailable < s.size := by
  have hs : 0 < s.size := by
    obtain ⟨hpow, hwp, hrp, hlen⟩ := h
    omega
  rw [getAvailable_eq s h]
  exact Nat.mod_lt _ hs

theorem ringAvailableForWrite_eq (s : DirettaRingBuffer) (h : s.WF) :
    ringAvailableForWrite s.size s.writePos s.readPos = s.getFreeSpace := by
  rw [getFreeSpace_cases s h]
  rfl

theorem writeToRing_snd_le (s : DirettaRingBuffer) (staged : List Nat) :
    (s.writeToRing staged).2 ≤ staged.length := by
  unfold DirettaRingBuffer.writeToRing
  dsimp only
  split
  · exact Nat.zero_le _
  · split
    · exact Nat.zero_le _
    · exact Nat.min_le_left _ _

theorem writeToRing_snd_eq (s : DirettaRingBuffer) (staged : List Nat) (h : s.WF) :
    (s.writeToRing staged).2 = min staged.length s.getFreeSpace := by
  have hfree := ringAvailableForWrite_eq s h
  obtain ⟨⟨k, hk, hpow⟩, hwp, hrp, hlen⟩ := h
  have hs : 0 < s.size := by omega
  unfold DirettaRingBuffer.writeToRing
  dsimp only
  rw [hlen, hfree]
  by_cases hst : staged.length = 0
  · rw [if_pos (by simp [hst])]
    simp [hst]
  · rw [if_neg (by simp [Nat.pos_iff_ne_zero.mp hs, hst])]
    split
    · next hz => omega
    · rfl

theorem pop_snd_length (s : DirettaRingBuffer) (len : Nat) (h : s.WF) :
    ((s.pop len).2).length = min len s.getAvailable := by
  have havail := getAvailable_lt s h
  obtain ⟨⟨k, hk, hpow⟩, hwp, hrp, hlen⟩ := h
  have hs : 0 < s.size := by omega
  unfold DirettaRingBuffer.pop
  rw [if_neg (Nat.pos_iff_ne_zero.mp hs)]
  dsimp only
  split
  · next hz => simp [hz]
  · next hz =>
    simp only [List.length_append, List.length_take, List.length_drop, hlen]
    omega

theorem pop_fst_WF (s : DirettaRingBuffer) (len : Nat) (h : s.WF) :
    ((s.pop len).1).WF := by
  obtain ⟨⟨k, hk, hpow⟩, hwp, hrp, hlen⟩ := h
  have hs : 0 < s.size := by omega
  unfold DirettaRingBuffer.pop
  rw [if_neg (Nat.pos_iff_ne_zero.mp hs)]
  dsimp only
  split
  · exact ⟨⟨k, hk, hpow⟩, hwp, hrp, hlen⟩
  · refine ⟨⟨k, hk, hpow⟩, hwp, ?_, hlen⟩
    show (s.readPos + min len s.getAvailable) &&& s.mask < s.size
    rw [land_mask_eq_mod s k hpow]
    exact Nat.mod_lt _ hs

theorem pop_fst_fields (s : DirettaRingBuffer) (len : Nat) :
    ((s.pop len).1).size = s.size ∧ ((s.pop len).1).buffer = s.buffer ∧
    ((s.pop len).1).writePos = s.writePos ∧
    ((s.pop len).1).silenceByte = s.silenceByte := by
  unfold DirettaRingBuffer.pop
  split
  · exact ⟨rfl, rfl, rfl, rfl⟩
  · dsimp only
    split
    · exact ⟨rfl, rfl, rfl, rfl⟩
    · exact ⟨rfl, rfl, rfl, rfl⟩

/-- A concrete `DirettaSync` state used by the witnesses: a freshly
resized 64-byte PCM ring, online, prefill pending. -/
def demoSync : DirettaSync :=
  { ring := emptyRing.resize 64 0, prefillComplete := false, prefillTarget := 16,
    draining := false, stopRequested := false, online := true, reconfiguring := false,
    silenceBuffersRemaining := 0, postOnlineDelayDone := true, stabilizationCount := 0,
    bytesPerBuffer := 8, bytesPerFrame := 8, framesPerBufferRemainder := 0,
    framesPerBufferAccumulator := 0, isDsdMode := false, need24BitPack := false,
    need16To32Upsample := false, need16To24Upsample := false, channels := 2,
    bytesPerSample := 4, dsdConversionMode := DSDConversionMode.Passthrough,
    underrunCount := 0 }

/-- C8.  `sendAudio` returns 0 and leaves the whole state (in
particular the ring) unchanged whenever draining is active, a stop has
been requested, or the sink is not yet online. -/
theorem C8_sendAudio_gated (s : DirettaSync) (data : List Nat) (numSamples : Nat)
    (h : s.draining = true ∨ s.stopRequested = true ∨ s.online = false) :
    s.sendAudio data numSamples = (s, 0) := by
  unfold DirettaSync.sendAudio
  rcases h with h | h | h
  · simp [h]
  · by_cases hd : s.draining <;> simp [h, hd]
  · by_cases hd : s.draining <;> by_cases hs : s.stopRequested <;> simp [h, hd, hs]

/-- Witness for C8: a draining state swallows input unchanged. -/
theorem C8_sendAudio_gated_witness :
    { demoSync with draining := true }.draining = true ∧
    { demoSync with draining := true }.sendAudio [1, 2, 3, 4] 1
      = ({ demoSync with draining := true }, 0) :=
  ⟨rfl, C8_sendAudio_gated { demoSync with draining := true } [1, 2, 3, 4] 1 (Or.inl rfl)⟩

/-- C9.  `AudioFormat::operator==` compares only `sampleRate`,
`bitDepth`, `channels` and `isDSD`: two formats that agree on those four
fields (so possibly differ in `isCompressed` or `dsdFormat`) compare
equal, the `sameFormat` test of `DirettaSync::open` passes for them, and
an open session with a previous format takes the quick-resume path. -/
theorem C9_format_eq_ignores_hints (a b : AudioFormat)
    (h1 : a.sampleRate = b.sampleRate) (h2 : a.bitDepth = b.bitDepth)
    (h3 : a.channels = b.channels) (h4 : a.isDSD = b.isDSD) :
    AudioFormat.beq a b = true ∧ sameFormatCheck a b = true ∧
    openTakesQuickResume true true a b = true := by
  refine ⟨?_, ?_, ?_⟩ <;>
    simp [AudioFormat.beq, sameFormatCheck, openTakesQuickResume, h1, h2, h3, h4]

/-- A DSF-layout uncompressed DSD64 format. -/
def demoFormatDSF : AudioFormat :=
  { sampleRate := 2822400, bitDepth := 1, channels := 2, isDSD := true,
    isCompressed := false, dsdFormat := AudioDSDFormat.DSF }

/-- The same format with DFF layout and the compressed hint set. -/
def demoFormatDFF : AudioFormat :=
  { sampleRate := 2822400, bitDepth := 1, channels := 2, isDSD := true,
    isCompressed := true, dsdFormat := AudioDSDFormat.DFF }

/-- Witness for C9: DSF vs DFF layout plus a flipped compressed hint
still compare equal and take the quick-resume path. -/
theorem C9_format_eq_ignores_hints_witness :
    AudioFormat.beq demoFormatDSF demoFormatDFF = true ∧
    sameFormatCheck demoFormatDSF demoFormatDFF = true ∧
    openTakesQuickResume true true demoFormatDSF demoFormatDFF = true :=
  C9_format_eq_ignores_hints demoFormatDSF demoFormatDFF rfl rfl rfl rfl

/-! Lemmas about the DoP planar streams. -/

theorem dopPlanarCh0_length (b : List Nat) (n : Nat) :
    (dopPlanarCh0 b n).length = 2 * n := by
  induction n with
  | zero => rfl
  | succ m ih =>
    show (dopPlanarCh0 b m ++ _).length = 2 * (m + 1)
    rw [List.length_append, ih]
    simp [Nat.mul_succ]

theorem dopPlanarCh1_length (b : List Nat) (n : Nat) :
    (dopPlanarCh1 b n).length = 2 * n := by
  induction n with
  | zero => rfl
  | succ m ih =>
    show (dopPlanarCh1 b m ++ _).length = 2 * (m + 1)
    rw [List.length_append, ih]
    simp [Nat.mul_succ]

theorem dopPlanarCh0_getD (b : List Nat) (n f : Nat) (hf : f < n) :
    (dopPlanarCh0 b n).getD (2 * f) 0 = b.getD (8 * f + 2) 0 ∧
    (dopPlanarCh0 b n).getD (2 * f + 1) 0 = b.getD (8 * f + 1) 0 := by
  induction n with
  | zero => omega
  | succ m ih =>
    have hlen := dopPlanarCh0_length b m
    show ((dopPlanarCh0 b m ++ [b.getD (8 * m + 2) 0, b.getD (8 * m + 1) 0]).getD (2 * f) 0 = _)
      ∧ ((dopPlanarCh0 b m ++ [b.getD (8 * m + 2) 0, b.getD (8 * m + 1) 0]).getD (2 * f + 1) 0 = _)
    rcases Nat.lt_succ_iff_lt_or_eq.mp hf with hlt | heq
    · constructor
      · rw [List.getD_eq_getElem?_getD, List.getElem?_append_left (by omega),
            ← List.getD_eq_getElem?_getD]
        exact (ih hlt).1
      · rw [List.getD_eq_getElem?_getD, List.getElem?_append_left (by omega),
            ← List.getD_eq_getElem?_getD]
        exact (ih hlt).2
    · subst heq
      constructor
      · rw [List.getD_eq_getElem?_getD, List.getElem?_append_right (by omega)]
        simp [hlen]
      · rw [List.getD_eq_getElem?_getD, List.getElem?_append_right (by omega)]
        have h1 : 2 * f + 1 - (dopPlanarCh0 b f).length = 1 := by omega
        rw [h1]
        simp

theorem dopPlanarCh1_getD (b : List Nat) (n f : Nat) (hf : f < n) :
    (dopPlanarCh1 b n).getD (2 * f) 0 = b.getD (8 * f + 6) 0 ∧
    (dopPlanarCh1 b n).getD (2 * f + 1) 0 = b.getD (8 * f + 5) 0 := by
  induction n with
  | zero => omega
  | succ m ih =>
    have hlen := dopPlanarCh1_length b m
    show ((dopPlanarCh1 b m ++ [b.getD (8 * m + 6) 0, b.getD (8 * m + 5) 0]).getD (2 * f) 0 = _)
      ∧ ((dopPlanarCh1 b m ++ [b.getD (8 * m + 6) 0, b.getD (8 * m + 5) 0]).getD (2 * f + 1) 0 = _)
    rcases Nat.lt_succ_iff_lt_or_eq.mp hf with hlt | heq
    · constructor
      · rw [List.getD_eq_getElem?_getD, List.getElem?_append_left (by omega),
            ← List.getD_eq_getElem?_getD]
        exact (ih hlt).1
      · rw [List.getD_eq_getElem?_getD, List.getElem?_append_left (by omega),
            ← List.getD_eq_getElem?_getD]
        exact (ih hlt).2
    · subst heq
      constructor
      · rw [List.getD_eq_getElem?_getD, List.getElem?_append_right (by omega)]
        simp [hlen]
      · rw [List.getD_eq_getElem?_getD, List.getElem?_append_right (by omega)]
        have h1 : 2 * f + 1 - (dopPlanarCh1 b f).length = 1 := by omega
        rw [h1]
        simp

/-- C6.  For every stereo DoP frame, the conversion writes source bytes
2 then 1 to the channel-0 planar stream and bytes 6 then 5 to the
channel-1 planar stream (2 bytes per channel per frame; the padding
byte 0/4 and the marker byte 3/7 are discarded); in particular the
frame `[00 AA BB 05 00 CC DD FA]` yields planar `[BB AA]` for channel 0
and `[DD CC]` for channel 1. -/
theorem C6_dop_to_native_dsd (buffer : List Nat) (numFrames f : Nat)
    (hf : f < numFrames) :
    (dopPlanarCh0 buffer numFrames).getD (2 * f) 0 = buffer.getD (8 * f + 2) 0 ∧
    (dopPlanarCh0 buffer numFrames).getD (2 * f + 1) 0 = buffer.getD (8 * f + 1) 0 ∧
    (dopPlanarCh1 buffer numFrames).getD (2 * f) 0 = buffer.getD (8 * f + 6) 0 ∧
    (dopPlanarCh1 buffer numFrames).getD (2 * f + 1) 0 = buffer.getD (8 * f + 5) 0 ∧
    dopToPlanarDSD [0x00, 0xAA, 0xBB, 0x05, 0x00, 0xCC, 0xDD, 0xFA] 1
      = [0xBB, 0xAA, 0xDD, 0xCC] :=
  ⟨(dopPlanarCh0_getD buffer numFrames f hf).1,
   (dopPlanarCh0_getD buffer numFrames f hf).2,
   (dopPlanarCh1_getD buffer numFrames f hf).1,
   (dopPlanarCh1_getD buffer numFrames f hf).2,
   by decide⟩

/-- Witness for C6 at the concrete E4 frame. -/
theorem C6_dop_to_native_dsd_witness :
    0 < 1 ∧
    (dopPlanarCh0 [0x00, 0xAA, 0xBB, 0x05, 0x00, 0xCC, 0xDD, 0xFA] 1).getD 0 0
      = [0x00, 0xAA, 0xBB, 0x05, 0x00, 0xCC, 0xDD, 0xFA].getD 2 0 :=
  ⟨by decide,
   (C6_dop_to_native_dsd [0x00, 0xAA, 0xBB, 0x05, 0x00, 0xCC, 0xDD, 0xFA] 1 0
     (by decide)).1⟩

/-! Lemmas about the magic scan of the pipe reader. -/

theorem findMagicFrom_sound (l : List Nat) (k j : Nat)
    (h : findMagicFrom l k = some j) :
    k ≤ j ∧ (l.drop (j - k)).take 4 = sqfhMagic := by
  induction l generalizing k with
  | nil => simp [findMagicFrom] at h
  | cons b rest ih =>
    rw [findMagicFrom] at h
    split at h
    · next hm =>
      cases h
      refine ⟨Nat.le_refl _, ?_⟩
      simpa using hm
    · next hm =>
      obtain ⟨hle, htake⟩ := ih (k + 1) h
      refine ⟨by omega, ?_⟩
      have hd : (b :: rest).drop (j - k) = rest.drop (j - (k + 1)) := by
        have h1 : j - k = (j - (k + 1)) + 1 := by omega
        rw [h1]
        rfl
      rw [hd]
      exact htake

theorem findMagicFrom_complete (l : List Nat) (k m : Nat)
    (h : (l.drop m).take 4 = sqfhMagic) :
    ∃ j, findMagicFrom l k = some j := by
  induction l generalizing k m with
  | nil =>
    exfalso
    have : (List.nil.drop m).take 4 = ([] : List Nat) := by simp
    rw [this] at h
    exact absurd h (by decide)
  | cons b rest ih =>
    rw [findMagicFrom]
    split
    · exact ⟨k, rfl⟩
    · next hm =>
      cases m with
      | zero => simp at h; exact absurd h hm
      | succ m0 => exact ih (k + 1) m0 h

theorem take_four_len_ge (l : List Nat) (m : Nat)
    (h : (l.drop m).take 4 = sqfhMagic) : m + 4 ≤ l.length := by
  have hlen : ((l.drop m).take 4).length = sqfhMagic.length := by rw [h]
  simp [List.length_take, List.length_drop] at hlen
  have : sqfhMagic.length = 4 := by decide
  omega

/-- C7.  (Pipe reader modelled from the spec.)  Every `readUpTo n` call
returns at most `n` bytes; and whenever the 4-byte `SQFH` magic occurs
at a positive offset inside the slice it would return, the returned
slice is truncated to the offset `k` of a magic occurrence, so the
header is not consumed as audio and a subsequent `peek 4` on the
remaining stream returns exactly the magic bytes. -/
theorem C7_readUpTo_preserves_header (buffered : List Nat) (n : Nat) :
    (readUpTo buffered n).1.length ≤ n ∧
    (∀ j, 1 ≤ j → (((buffered.take n).drop j).take 4 = sqfhMagic) →
      ∃ k, 1 ≤ k ∧ (readUpTo buffered n).1 = (buffered.take n).take k ∧
        (readUpTo buffered n).1.length = k ∧
        ((buffered.take n).drop k).take 4 = sqfhMagic ∧
        pipePeek (readUpTo buffered n).2 4 = sqfhMagic) := by
  constructor
  · unfold readUpTo
    dsimp only
    split
    · calc ((buffered.take n).take _).length ≤ (buffered.take n).length :=
            List.length_take_le' _ _
        _ ≤ n := by simp [List.length_take]
    · simp [List.length_take]
  · intro j hj hmagic
    have hslice : ∃ hd tl, buffered.take n = hd :: tl := by
      cases hs : buffered.take n with
      | nil => rw [hs] at hmagic; simp at hmagic; exact absurd hmagic (by decide)
      | cons hd tl => exact ⟨hd, tl, rfl⟩
    obtain ⟨hd, tl, hslice⟩ := hslice
    have htl : (tl.drop (j - 1)).take 4 = sqfhMagic := by
      have h1 : (buffered.take n).drop j = tl.drop (j - 1) := by
        rw [hslice]
        have h2 : j = (j - 1) + 1 := by omega
        rw [h2]
        rfl
      rw [← h1]
      exact hmagic
    obtain ⟨k, hk⟩ := findMagicFrom_complete tl 1 (j - 1) htl
    obtain ⟨hk1, hktake⟩ := findMagicFrom_sound tl 1 k hk
    have hkmagic : ((buffered.take n).drop k).take 4 = sqfhMagic := by
      rw [hslice]
      have h2 : k = (k - 1) + 1 := by omega
      rw [h2]
      show (tl.drop (k - 1)).take 4 = sqfhMagic
      exact hktake
    have hfind : findMagicInSlice (buffered.take n) = some k := by
      rw [hslice]
      exact hk
    have hklen : k + 4 ≤ (buffered.take n).length := take_four_len_ge _ k hkmagic
    have hkn : k + 4 ≤ n := by
      have := List.length_take_le n buffered
      omega
    refine ⟨k, hk1, ?_, ?_, hkmagic, ?_⟩
    · unfold readUpTo
      dsimp only
      rw [hfind]
    · unfold readUpTo
      dsimp only
      rw [hfind]
      simp only [List.length_take] at hklen ⊢
      omega
    · unfold readUpTo
      dsimp only
      rw [hfind]
      show (buffered.drop k).take 4 = sqfhMagic
      have hcomm : (buffered.take n).drop k = (buffered.drop k).take (n - k) := by
        rw [List.drop_take]
      rw [hcomm] at hkmagic
      rw [List.take_take] at hkmagic
      have hmin : min 4 (n - k) = 4 := by omega
      rw [hmin] at hkmagic
      exact hkmagic

/-- Witness for C7: a stream with two audio bytes followed by the
header magic; the read stops right before the header. -/
theorem C7_readUpTo_preserves_header_witness :
    (1 : Nat) ≤ 2 ∧
    (([7, 9, 0x53, 0x51, 0x46, 0x48, 1, 2].take 8).drop 2).take 4 = sqfhMagic ∧
    ∃ k, 1 ≤ k ∧
      (readUpTo [7, 9, 0x53, 0x51, 0x46, 0x48, 1, 2] 8).1
        = ([7, 9, 0x53, 0x51, 0x46, 0x48, 1, 2].take 8).take k ∧
      (readUpTo [7, 9, 0x53, 0x51, 0x46, 0x48, 1, 2] 8).1.length = k ∧
      (([7, 9, 0x53, 0x51, 0x46, 0x48, 1, 2].take 8).drop k).take 4 = sqfhMagic ∧
      pipePeek (readUpTo [7, 9, 0x53, 0x51, 0x46, 0x48, 1, 2] 8).2 4 = sqfhMagic :=
  ⟨by decide, by decide,
   (C7_readUpTo_preserves_header [7, 9, 0x53, 0x51, 0x46, 0x48, 1, 2] 8).2 2
     (by decide) (by decide)⟩

/-! Case lemmas for `sendAudio` and `getNewStream`. -/

theorem sendAudio_prefill_cases (s : DirettaSync) (data : List Nat) (n : Nat) :
    (s.sendAudio data n).1.prefillComplete = s.prefillComplete ∨
    ((s.sendAudio data n).1.prefillComplete = true ∧
     (s.sendAudio data n).1.ring.getAvailable ≥ s.prefillTarget) := by
  unfold DirettaSync.sendAudio
  by_cases h1 : s.draining
  · rw [if_pos h1]; left; rfl
  · rw [if_neg h1]
    by_cases h2 : s.stopRequested
    · rw [if_pos h2]; left; rfl
    · rw [if_neg h2]
      by_cases h3 : s.online
      · rw [if_neg (by simp [h3])]
        by_cases h4 : s.reconfiguring
        · rw [if_pos h4]; left; rfl
        · rw [if_neg h4]
          dsimp only
          split
          · next hc => right; exact ⟨rfl, hc.2.2⟩
          · left; rfl
      · rw [if_pos (by simp [h3])]; left; rfl

theorem getNewStream_cases (s : DirettaSync) (t : Nat) :
    ((s.getNewStream t).2 = List.replicate s.cycleBpb s.ring.silenceByte ∧
     (s.getNewStream t).1.ring = s.ring) ∨
    (s.prefillComplete = true ∧ s.postOnlineDelayDone = true ∧
     s.ring.getAvailable ≥ s.cycleBpb ∧
     (s.getNewStream t).1.ring = (s.ring.pop s.cycleBpb).1 ∧
     (s.getNewStream t).2 = (s.ring.pop s.cycleBpb).2) := by
  unfold DirettaSync.getNewStream
  dsimp only
  by_cases h1 : s.reconfiguring
  · rw [if_pos h1]; left; exact ⟨rfl, rfl⟩
  · rw [if_neg h1]
    by_cases h2 : s.silenceBuffersRemaining > 0
    · rw [if_pos h2]; left; exact ⟨rfl, rfl⟩
    · rw [if_neg h2]
      by_cases h3 : s.stopRequested
      · rw [if_pos h3]; left; exact ⟨rfl, rfl⟩
      · rw [if_neg h3]
        by_cases h4 : s.prefillComplete = false
        · rw [if_pos h4]; left; exact ⟨rfl, rfl⟩
        · rw [if_neg h4]
          by_cases h5 : s.postOnlineDelayDone = false
          · rw [if_pos h5]
            split
            · left; exact ⟨rfl, rfl⟩
            · left; exact ⟨rfl, rfl⟩
          · rw [if_neg h5]
            by_cases h6 : s.ring.getAvailable < s.cycleBpb
            · rw [if_pos h6]; left; exact ⟨rfl, rfl⟩
            · rw [if_neg h6]
              right
              refine ⟨?_, ?_, by omega, rfl, rfl⟩
              · cases hp : s.prefillComplete with
                | false => exact absurd hp h4
                | true => rfl
              · cases hp : s.postOnlineDelayDone with
                | false => exact absurd hp h5
                | true => rfl

theorem getNewStream_fields (s : DirettaSync) (t : Nat) :
    (s.getNewStream t).1.prefillComplete = s.prefillComplete ∧
    (s.getNewStream t).1.bytesPerBuffer = s.bytesPerBuffer ∧
    (s.getNewStream t).1.bytesPerFrame = s.bytesPerFrame ∧
    (s.getNewStream t).1.framesPerBufferRemainder = s.framesPerBufferRemainder ∧
    (s.getNewStream t).1.framesPerBufferAccumulator = s.cycleAcc := by
  unfold DirettaSync.getNewStream
  dsimp only
  by_cases h1 : s.reconfiguring
  · rw [if_pos h1]; exact ⟨rfl, rfl, rfl, rfl, rfl⟩
  · rw [if_neg h1]
    by_cases h2 : s.silenceBuffersRemaining > 0
    · rw [if_pos h2]; exact ⟨rfl, rfl, rfl, rfl, rfl⟩
    · rw [if_neg h2]
      by_cases h3 : s.stopRequested
      · rw [if_pos h3]; exact ⟨rfl, rfl, rfl, rfl, rfl⟩
      · rw [if_neg h3]
        by_cases h4 : s.prefillComplete = false
        · rw [if_pos h4]; exact ⟨rfl, rfl, rfl, rfl, rfl⟩
        · rw [if_neg h4]
          by_cases h5 : s.postOnlineDelayDone = false
          · rw [if_pos h5]
            split
            · exact ⟨rfl, rfl, rfl, rfl, rfl⟩
            · exact ⟨rfl, rfl, rfl, rfl, rfl⟩
          · rw [if_neg h5]
            by_cases h6 : s.ring.getAvailable < s.cycleBpb
            · rw [if_pos h6]; exact ⟨rfl, rfl, rfl, rfl, rfl⟩
            · rw [if_neg h6]; exact ⟨rfl, rfl, rfl, rfl, rfl⟩

/-- C2.  `m_prefillComplete` becomes true only at a moment when the
ring holds at least `m_prefillTarget` bytes (set in `sendAudio` after a
successful push when `getAvailable() ≥ m_prefillTarget`); neither
`sendAudio` nor a `getNewStream` cycle ever resets it, while the
quick-resume reset both clears it and empties the ring; and every
`getNewStream` cycle executed while it is false fills the whole cycle
buffer with the silence byte and leaves the ring untouched (no pop). -/
theorem C2_prefill_gating (s : DirettaSync) (data : List Nat) (numSamples stab : Nat) :
    (s.prefillComplete = false → (s.sendAudio data numSamples).1.prefillComplete = true →
      (s.sendAudio data numSamples).1.ring.getAvailable ≥ s.prefillTarget) ∧
    (s.prefillComplete = true → (s.sendAudio data numSamples).1.prefillComplete = true) ∧
    (s.prefillComplete = true → (s.getNewStream stab).1.prefillComplete = true) ∧
    (s.quickResumeReset.prefillComplete = false ∧
     s.quickResumeReset.ring.getAvailable = 0) ∧
    (s.prefillComplete = false →
      (s.getNewStream stab).2 = List.replicate s.cycleBpb s.ring.silenceByte ∧
      (s.getNewStream stab).1.ring = s.ring) := by
  refine ⟨?_, ?_, ?_, ⟨rfl, ?_⟩, ?_⟩
  · intro hpre hpost
    rcases sendAudio_prefill_cases s data numSamples with hc | hc
    · rw [hpre] at hc; exact absurd (hpost.symm.trans hc) (by decide)
    · exact hc.2
  · intro hpre
    rcases sendAudio_prefill_cases s data numSamples with hc | hc
    · rw [hc, hpre]
    · exact hc.1
  · intro hpre
    rw [(getNewStream_fields s stab).1, hpre]
  · show (s.ring.clear).getAvailable = 0
    unfold DirettaRingBuffer.clear DirettaRingBuffer.getAvailable wrapSub
    dsimp only
    split
    · rfl
    · simp
  · intro hpre
    rcases getNewStream_cases s stab with hc | hc
    · exact ⟨hc.1, hc.2⟩
    · rw [hpre] at hc; exact absurd hc.1 (by decide)

/-- Witness for C2: the demo state (prefill pending) emits one cycle
buffer of silence without touching the ring. -/
theorem C2_prefill_gating_witness :
    demoSync.prefillComplete = false ∧
    (demoSync.getNewStream 20).2
      = List.replicate demoSync.cycleBpb demoSync.ring.silenceByte :=
  ⟨rfl, ((C2_prefill_gating demoSync [] 0 20).2.2.2.2 rfl).1⟩

theorem getNewStream_out_length (s : DirettaSync) (t : Nat) (hwf : s.ring.WF) :
    ((s.getNewStream t).2).length = s.cycleBpb := by
  rcases getNewStream_cases s t with hc | hc
  · rw [hc.1, List.length_replicate]
  · rw [hc.2.2.2.2, pop_snd_length s.ring s.cycleBpb hwf]
    omega

theorem getNewStream_ring_WF (s : DirettaSync) (t : Nat) (hwf : s.ring.WF) :
    ((s.getNewStream t).1).ring.WF := by
  rcases getNewStream_cases s t with hc | hc
  · rw [hc.2]; exact hwf
  · rw [hc.2.2.2.1]; exact pop_fst_WF s.ring s.cycleBpb hwf

theorem runProduceCycles_total (t : Nat) : ∀ (n : Nat) (s : DirettaSync),
    s.ring.WF → s.framesPerBufferRemainder = 100 → s.bytesPerBuffer = 352 →
    s.bytesPerFrame = 8 → s.framesPerBufferAccumulator < 1000 →
    (runProduceCycles t n s).2
      = n * 352 + 8 * ((s.framesPerBufferAccumulator + 100 * n) / 1000) := by
  intro n
  induction n with
  | zero =>
    intro s hwf h1 h2 h3 h4
    show (0 : Nat) = 0 * 352 + 8 * ((s.framesPerBufferAccumulator + 100 * 0) / 1000)
    omega
  | succ m ih =>
    intro s hwf h1 h2 h3 h4
    have hbpb : s.cycleBpb
        = if s.framesPerBufferAccumulator + 100 ≥ 1000 then 360 else 352 := by
      unfold DirettaSync.cycleBpb
      rw [h1, h2, h3]
      by_cases hcond : s.framesPerBufferAccumulator + 100 ≥ 1000
      · rw [if_pos ⟨by omega, hcond⟩, if_pos hcond]
      · rw [if_neg (by omega), if_neg hcond]
    have hacc : s.cycleAcc
        = if s.framesPerBufferAccumulator + 100 ≥ 1000
          then s.framesPerBufferAccumulator + 100 - 1000
          else s.framesPerBufferAccumulator + 100 := by
      unfold DirettaSync.cycleAcc
      rw [h1]
      rw [if_neg (by omega)]
    have hf := getNewStream_fields s t
    have hstep := ih ((s.getNewStream t).1) (getNewStream_ring_WF s t hwf)
      (by rw [hf.2.2.2.1, h1]) (by rw [hf.2.1, h2]) (by rw [hf.2.2.1, h3])
      (by rw [hf.2.2.2.2, hacc]; split <;> omega)
    show ((s.getNewStream t).2).length
        + (runProduceCycles t m ((s.getNewStream t).1)).2 = _
    rw [getNewStream_out_length s t hwf, hstep, hf.2.2.2.2, hbpb, hacc]
    by_cases hcond : s.framesPerBufferAccumulator + 100 ≥ 1000
    · rw [if_pos hcond, if_pos hcond]
      omega
    · rw [if_neg hcond, if_neg hcond]
      omega

/-- C5.  With the PCM cycle-size rule of `configureRingPCM` at
44 100 Hz, stereo, 4 bytes per sample (base 44 frames = 352 bytes per
cycle, remainder 100 per cycle, one extra 8-byte frame when the
accumulator wraps at 1000), the total bytes requested by
`produce_stream` over any window of 1000 consecutive cycles equals
`44100 · 8 = 352 800`, for every starting accumulator value. -/
theorem C5_remainder_conservation (s : DirettaSync) (stab : Nat)
    (hwf : s.ring.WF)
    (h1 : s.framesPerBufferRemainder = (pcmCycleParams 44100 2 4).2.2)
    (h2 : s.bytesPerBuffer = (pcmCycleParams 44100 2 4).1)
    (h3 : s.bytesPerFrame = (pcmCycleParams 44100 2 4).2.1)
    (h4 : s.framesPerBufferAccumulator < 1000) :
    (runProduceCycles stab 1000 s).2 = 352800 := by
  have e1 : (pcmCycleParams 44100 2 4).2.2 = 100 := rfl
  have e2 : (pcmCycleParams 44100 2 4).1 = 352 := rfl
  have e3 : (pcmCycleParams 44100 2 4).2.1 = 8 := rfl
  rw [e1] at h1
  rw [e2] at h2
  rw [e3] at h3
  rw [runProduceCycles_total stab 1000 s hwf h1 h2 h3 h4]
  omega

/-- The demo state adjusted to the 44.1 kHz stereo 32-bit cycle rule. -/
def demoSync44 : DirettaSync :=
  { demoSync with framesPerBufferRemainder := 100, bytesPerBuffer := 352,
                  bytesPerFrame := 8, framesPerBufferAccumulator := 999 }

/-- Witness for C5 at a concrete state with accumulator 999. -/
theorem C5_remainder_conservation_witness :
    demoSync44.ring.WF ∧ demoSync44.framesPerBufferAccumulator < 1000 ∧
    (runProduceCycles 20 1000 demoSync44).2 = 352800 :=
  have hwf : demoSync44.ring.WF :=
    ⟨⟨6, by norm_num, by decide⟩, by decide, by decide, by decide⟩
  ⟨hwf, by decide,
   C5_remainder_conservation demoSync44 20 hwf rfl rfl rfl (by decide)⟩

/-! Length lemmas for the staged conversions. -/

theorem convert24BitPacked_length (src : List Nat) (n : Nat) :
    (convert24BitPacked src n).length = n * 3 :=
  flatMap_range_const_length n 3 _ (fun _ => rfl)

theorem convert24BitPackedShifted_length (src : List Nat) (n : Nat) :
    (convert24BitPackedShifted src n).length = n * 3 :=
  flatMap_range_const_length n 3 _ (fun _ => rfl)

theorem convert16To32_length (src : List Nat) (n : Nat) :
    (convert16To32 src n).length = n * 4 :=
  flatMap_range_const_length n 4 _ (fun _ => rfl)

theorem convert16To24_length (src : List Nat) (n : Nat) :
    (convert16To24 src n).length = n * 3 :=
  flatMap_range_const_length n 3 _ (fun _ => rfl)

theorem convertDSD_Passthrough_length (src : List Nat) (tib nc : Nat) :
    (convertDSD_Passthrough src tib nc).length = ((tib / nc + 3) / 4) * (nc * 4) := by
  unfold convertDSD_Passthrough
  exact flatMap_range_const_length _ _ _
    (fun g => flatMap_range_const_length _ _ _ (fun ch => rfl))

theorem convertDSD_BitReverse_length (src : List Nat) (tib nc : Nat) :
    (convertDSD_BitReverse src tib nc).length = ((tib / nc + 3) / 4) * (nc * 4) := by
  unfold convertDSD_BitReverse
  exact flatMap_range_const_length _ _ _
    (fun g => flatMap_range_const_length _ _ _ (fun ch => rfl))

theorem convertDSD_ByteSwap_length (src : List Nat) (tib nc : Nat) :
    (convertDSD_ByteSwap src tib nc).length = ((tib / nc + 3) / 4) * (nc * 4) := by
  unfold convertDSD_ByteSwap
  exact flatMap_range_const_length _ _ _
    (fun g => flatMap_range_const_length _ _ _ (fun ch => rfl))

theorem convertDSD_BitReverseSwap_length (src : List Nat) (tib nc : Nat) :
    (convertDSD_BitReverseSwap src tib nc).length = ((tib / nc + 3) / 4) * (nc * 4) := by
  unfold convertDSD_BitReverseSwap
  exact flatMap_range_const_length _ _ _
    (fun g => flatMap_range_const_length _ _ _ (fun ch => rfl))

theorem writeToRing_div_mul_le (s' : DirettaRingBuffer) (staged : List Nat)
    (c k ns L : Nat) (hst : staged.length = ns * c) (hc : 0 < c)
    (hns : ns * k ≤ L) : (s'.writeToRing staged).2 / c * k ≤ L := by
  have h1 := writeToRing_snd_le s' staged
  rw [hst] at h1
  have h2 : (s'.writeToRing staged).2 / c ≤ ns := by
    have h3 : (s'.writeToRing staged).2 / c ≤ ns * c / c := Nat.div_le_div_right h1
    rwa [Nat.mul_div_cancel _ hc] at h3
  calc (s'.writeToRing staged).2 / c * k ≤ ns * k := Nat.mul_le_mul_right k h2
    _ ≤ L := hns

theorem dsdUsableInput_le (s : DirettaRingBuffer) (dataLen nc : Nat) :
    dsdUsableInput s dataLen nc ≤ min (min dataLen STAGING_SIZE) s.getFreeSpace := by
  unfold dsdUsableInput
  dsimp only
  calc min (min dataLen STAGING_SIZE) s.getFreeSpace / nc / 4 * 4 * nc
      ≤ min (min dataLen STAGING_SIZE) s.getFreeSpace / nc * nc :=
        Nat.mul_le_mul_right nc (Nat.div_mul_le_self _ 4)
    _ ≤ min (min dataLen STAGING_SIZE) s.getFreeSpace := Nat.div_mul_le_self _ nc

theorem dsdUsableInput_mod (s : DirettaRingBuffer) (dataLen nc : Nat) :
    dsdUsableInput s dataLen nc % (4 * nc) = 0 := by
  unfold dsdUsableInput
  dsimp only
  rw [Nat.mul_assoc]
  exact Nat.mul_mod_left _ _

theorem dsdUsableInput_div (s : DirettaRingBuffer) (dataLen nc : Nat) (hnc : 0 < nc) :
    dsdUsableInput s dataLen nc / nc
      = min (min dataLen STAGING_SIZE) s.getFreeSpace / nc / 4 * 4 := by
  unfold dsdUsableInput
  dsimp only
  exact Nat.mul_div_cancel _ hnc

theorem writeToRing_exact (s : DirettaRingBuffer) (staged : List Nat) (h : s.WF)
    (hle : staged.length ≤ s.getFreeSpace) :
    (s.writeToRing staged).2 = staged.length := by
  rw [writeToRing_snd_eq s staged h]
  omega

theorem staged24_length (m : S24PackMode) (data : List Nat) (ns : Nat) :
    (if m = S24PackMode.MsbAligned then convert24BitPackedShifted data ns
     else convert24BitPacked data ns).length = ns * 3 := by
  split
  · exact convert24BitPackedShifted_length data ns
  · exact convert24BitPacked_length data ns

theorem push24BitPacked_granularity (s : DirettaRingBuffer) (data : List Nat) :
    (s.push24BitPacked data).2 % 4 = 0 ∧ (s.push24BitPacked data).2 ≤ data.length ∧
    (data.length < 4 → s.push24BitPacked data = (s, 0)) := by
  unfold DirettaRingBuffer.push24BitPacked
  by_cases hsz : s.size = 0
  · rw [if_pos hsz]
    exact ⟨rfl, Nat.zero_le _, fun _ => rfl⟩
  · rw [if_neg hsz]
    dsimp only
    by_cases h0 : data.length / 4 = 0
    · rw [if_pos h0]
      exact ⟨rfl, Nat.zero_le _, fun _ => rfl⟩
    · rw [if_neg h0]
      by_cases hns : min (min (data.length / 4) (STAGING_SIZE / 3)) (s.getFreeSpace / 3) = 0
      · rw [if_pos hns]
        exact ⟨rfl, Nat.zero_le _, fun _ => rfl⟩
      · rw [if_neg hns]
        dsimp only
        refine ⟨Nat.mul_mod_left _ 4, ?_,
                fun hlt => absurd (by omega : data.length / 4 = 0) h0⟩
        refine writeToRing_div_mul_le _ _ 3 4
          (min (min (data.length / 4) (STAGING_SIZE / 3)) (s.getFreeSpace / 3))
          data.length ?_ (by norm_num) ?_
        · exact staged24_length _ data _
        · have h1 : min (min (data.length / 4) (STAGING_SIZE / 3)) (s.getFreeSpace / 3)
              ≤ data.length / 4 :=
            le_trans (Nat.min_le_left _ _) (Nat.min_le_left _ _)
          omega

theorem push16To32_granularity (s : DirettaRingBuffer) (data : List Nat) :
    (s.push16To32 data).2 % 2 = 0 ∧ (s.push16To32 data).2 ≤ data.length ∧
    (data.length < 2 → s.push16To32 data = (s, 0)) := by
  unfold DirettaRingBuffer.push16To32
  by_cases hsz : s.size = 0
  · rw [if_pos hsz]
    exact ⟨rfl, Nat.zero_le _, fun _ => rfl⟩
  · rw [if_neg hsz]
    dsimp only
    by_cases h0 : data.length / 2 = 0
    · rw [if_pos h0]
      exact ⟨rfl, Nat.zero_le _, fun _ => rfl⟩
    · rw [if_neg h0]
      by_cases hns : min (min (data.length / 2) (STAGING_SIZE / 4)) (s.getFreeSpace / 4) = 0
      · rw [if_pos hns]
        exact ⟨rfl, Nat.zero_le _, fun _ => rfl⟩
      · rw [if_neg hns]
        dsimp only
        refine ⟨Nat.mul_mod_left _ 2, ?_,
                fun hlt => absurd (by omega : data.length / 2 = 0) h0⟩
        refine writeToRing_div_mul_le _ _ 4 2
          (min (min (data.length / 2) (STAGING_SIZE / 4)) (s.getFreeSpace / 4))
          data.length ?_ (by norm_num) ?_
        · exact convert16To32_length data _
        · have h1 : min (min (data.length / 2) (STAGING_SIZE / 4)) (s.getFreeSpace / 4)
              ≤ data.length / 2 :=
            le_trans (Nat.min_le_left _ _) (Nat.min_le_left _ _)
          omega

theorem push16To24_granularity (s : DirettaRingBuffer) (data : List Nat) :
    (s.push16To24 data).2 % 2 = 0 ∧ (s.push16To24 data).2 ≤ data.length ∧
    (data.length < 2 → s.push16To24 data = (s, 0)) := by
  unfold DirettaRingBuffer.push16To24
  by_cases hsz : s.size = 0
  · rw [if_pos hsz]
    exact ⟨rfl, Nat.zero_le _, fun _ => rfl⟩
  · rw [if_neg hsz]
    dsimp only
    by_cases h0 : data.length / 2 = 0
    · rw [if_pos h0]
      exact ⟨rfl, Nat.zero_le _, fun _ => rfl⟩
    · rw [if_neg h0]
      by_cases hns : min (min (data.length / 2) (STAGING_SIZE / 3)) (s.getFreeSpace / 3) = 0
      · rw [if_pos hns]
        exact ⟨rfl, Nat.zero_le _, fun _ => rfl⟩
      · rw [if_neg hns]
        dsimp only
        refine ⟨Nat.mul_mod_left _ 2, ?_,
                fun hlt => absurd (by omega : data.length / 2 = 0) h0⟩
        refine writeToRing_div_mul_le _ _ 3 2
          (min (min (data.length / 2) (STAGING_SIZE / 3)) (s.getFreeSpace / 3))
          data.length ?_ (by norm_num) ?_
        · exact convert16To24_length data _
        · have h1 : min (min (data.length / 2) (STAGING_SIZE / 3)) (s.getFreeSpace / 3)
              ≤ data.length / 2 :=
            le_trans (Nat.min_le_left _ _) (Nat.min_le_left _ _)
          omega

theorem pushDSD_granularity (s : DirettaRingBuffer) (data : List Nat) (nc : Nat)
    (mode : DSDConversionMode) (h : s.WF) (hnc : 0 < nc) :
    (s.pushDSDPlanarOptimized data nc mode).2 % (4 * nc) = 0 ∧
    (s.pushDSDPlanarOptimized data nc mode).2 ≤ data.length ∧
    (data.length < 4 * nc → s.pushDSDPlanarOptimized data nc mode = (s, 0)) := by
  have hs0 : s.size ≠ 0 := by
    obtain ⟨⟨k, hk, hp⟩, hwp, _, _⟩ := h
    omega
  unfold DirettaRingBuffer.pushDSDPlanarOptimized
  rw [if_neg hs0, if_neg (by omega : ¬ nc = 0)]
  dsimp only
  by_cases hu : dsdUsableInput s data.length nc = 0
  · rw [if_pos hu]
    exact ⟨Nat.zero_mod _, Nat.zero_le _, fun _ => rfl⟩
  · rw [if_neg hu]
    have husz := dsdUsableInput_le s data.length nc
    have hfree : dsdUsableInput s data.length nc ≤ s.getFreeSpace :=
      le_trans husz (Nat.min_le_right _ _)
    have hlen : dsdUsableInput s data.length nc ≤ data.length :=
      le_trans husz (le_trans (Nat.min_le_left _ _) (Nat.min_le_left _ _))
    have hnotlt : ¬ data.length < 4 * nc := by
      intro hlt
      apply hu
      show min (min data.length STAGING_SIZE) s.getFreeSpace / nc / 4 * 4 * nc = 0
      have hmb : min (min data.length STAGING_SIZE) s.getFreeSpace < 4 * nc := by
        have h2 := le_trans
          (Nat.min_le_left (min data.length STAGING_SIZE) s.getFreeSpace)
          (Nat.min_le_left data.length STAGING_SIZE)
        omega
      have hq : min (min data.length STAGING_SIZE) s.getFreeSpace / nc < 4 := by
        rw [Nat.div_lt_iff_lt_mul hnc]
        omega
      rw [Nat.div_eq_of_lt hq]
      simp
    have harith : ((dsdUsableInput s data.length nc / nc + 3) / 4) * (nc * 4)
        = dsdUsableInput s data.length nc := by
      rw [dsdUsableInput_div s data.length nc hnc]
      show _ = min (min data.length STAGING_SIZE) s.getFreeSpace / nc / 4 * 4 * nc
      generalize min (min data.length STAGING_SIZE) s.getFreeSpace / nc / 4 = q
      have h44 : (q * 4 + 3) / 4 = q := by omega
      rw [h44]
      ring
    cases mode
    · have hst : (convertDSD_Passthrough data (dsdUsableInput s data.length nc) nc).length
          = dsdUsableInput s data.length nc := by
        rw [convertDSD_Passthrough_length]
        exact harith
      have hw := writeToRing_exact s
        (convertDSD_Passthrough data (dsdUsableInput s data.length nc) nc) h
        (hst.symm ▸ hfree)
      rw [hst] at hw
      dsimp only
      refine ⟨?_, ?_, fun hlt => absurd hlt hnotlt⟩
      · rw [hw]
        exact dsdUsableInput_mod s data.length nc
      · rw [hw]
        exact hlen
    · have hst : (convertDSD_BitReverse data (dsdUsableInput s data.length nc) nc).length
          = dsdUsableInput s data.length nc := by
        rw [convertDSD_BitReverse_length]
        exact harith
      have hw := writeToRing_exact s
        (convertDSD_BitReverse data (dsdUsableInput s data.length nc) nc) h
        (hst.symm ▸ hfree)
      rw [hst] at hw
      dsimp only
      refine ⟨?_, ?_, fun hlt => absurd hlt hnotlt⟩
      · rw [hw]
        exact dsdUsableInput_mod s data.length nc
      · rw [hw]
        exact hlen
    · have hst : (convertDSD_ByteSwap data (dsdUsableInput s data.length nc) nc).length
          = dsdUsableInput s data.length nc := by
        rw [convertDSD_ByteSwap_length]
        exact harith
      have hw := writeToRing_exact s
        (convertDSD_ByteSwap data (dsdUsableInput s data.length nc) nc) h
        (hst.symm ▸ hfree)
      rw [hst] at hw
      dsimp only
      refine ⟨?_, ?_, fun hlt => absurd hlt hnotlt⟩
      · rw [hw]
        exact dsdUsableInput_mod s data.length nc
      · rw [hw]
        exact hlen
    · have hst : (convertDSD_BitReverseSwap data (dsdUsableInput s data.length nc) nc).length
          = dsdUsableInput s data.length nc := by
        rw [convertDSD_BitReverseSwap_length]
        exact harith
      have hw := writeToRing_exact s
        (convertDSD_BitReverseSwap data (dsdUsableInput s data.length nc) nc) h
        (hst.symm ▸ hfree)
      rw [hst] at hw
      dsimp only
      refine ⟨?_, ?_, fun hlt => absurd hlt hnotlt⟩
      · rw [hw]
        exact dsdUsableInput_mod s data.length nc
      · rw [hw]
        exact hlen

/-- C10.  Every conversion push consumes a whole number of its input
units and never more than the input: `push24BitPacked` returns a
multiple of 4, `push16To32` and `push16To24` multiples of 2,
`pushDSDPlanarOptimized` a multiple of `4 · numChannels`, each bounded
by the input size; and an input smaller than one sample (one complete
4-byte-per-channel group for DSD) returns 0 with the state unchanged. -/
theorem C10_push_granularity (s : DirettaRingBuffer) (data : List Nat) (nc : Nat)
    (mode : DSDConversionMode) (h : s.WF) (hnc : 0 < nc) :
    (s.push24BitPacked data).2 % 4 = 0 ∧
    (s.push24BitPacked data).2 ≤ data.length ∧
    (s.push16To32 data).2 % 2 = 0 ∧
    (s.push16To32 data).2 ≤ data.length ∧
    (s.push16To24 data).2 % 2 = 0 ∧
    (s.push16To24 data).2 ≤ data.length ∧
    (s.pushDSDPlanarOptimized data nc mode).2 % (4 * nc) = 0 ∧
    (s.pushDSDPlanarOptimized data nc mode).2 ≤ data.length ∧
    (data.length < 4 → s.push24BitPacked data = (s, 0)) ∧
    (data.length < 2 → s.push16To32 data = (s, 0)) ∧
    (data.length < 2 → s.push16To24 data = (s, 0)) ∧
    (data.length < 4 * nc → s.pushDSDPlanarOptimized data nc mode = (s, 0)) := by
  obtain ⟨h24a, h24b, h24c⟩ := push24BitPacked_granularity s data
  obtain ⟨h32a, h32b, h32c⟩ := push16To32_granularity s data
  obtain ⟨h16a, h16b, h16c⟩ := push16To24_granularity s data
  obtain ⟨hda, hdb, hdc⟩ := pushDSD_granularity s data nc mode h hnc
  exact ⟨h24a, h24b, h32a, h32b, h16a, h16b, hda, hdb, h24c, h32c, h16c, hdc⟩

/-- Witness for C10 at a fresh 16-byte ring, stereo passthrough. -/
theorem C10_push_granularity_witness :
    (emptyRing.resize 16 0).WF ∧ (0 : Nat) < 2 ∧
    ((emptyRing.resize 16 0).push24BitPacked [1, 2, 3, 4, 5]).2 % 4 = 0 :=
  have hwf : (emptyRing.resize 16 0).WF :=
    ⟨⟨4, by norm_num, by decide⟩, by decide, by decide, by decide⟩
  ⟨hwf, by decide,
   (C10_push_granularity (emptyRing.resize 16 0) [1, 2, 3, 4, 5] 2
     DSDConversionMode.Passthrough hwf (by decide)).1⟩

/-! Lemmas for the S24 detection machine. -/

theorem detectS24_msb (data : List Nat) (n : Nat)
    (h0 : ∀ i, i < min n 64 → data.getD (i * 4) 0 = 0)
    (h3 : ∃ i, i < min n 64 ∧ data.getD (i * 4 + 3) 0 ≠ 0) :
    detectS24PackMode data n = S24PackMode.MsbAligned := by
  unfold detectS24PackMode
  dsimp only
  have ha : (List.range (min n 64)).all (fun i => data.getD (i * 4) 0 == 0) = true := by
    rw [List.all_eq_true]
    intro i hi
    rw [List.mem_range] at hi
    simpa using h0 i hi
  have hb : (List.range (min n 64)).all (fun i => data.getD (i * 4 + 3) 0 == 0) = false := by
    obtain ⟨i, hi, hne⟩ := h3
    rw [Bool.eq_false_iff]
    intro hall
    rw [List.all_eq_true] at hall
    have := hall i (List.mem_range.mpr hi)
    simp only [beq_iff_eq] at this
    exact hne this
  rw [ha, hb]
  rfl

theorem detectS24_lsb (data : List Nat) (n : Nat)
    (h0 : ∃ i, i < min n 64 ∧ data.getD (i * 4) 0 ≠ 0)
    (h3 : ∀ i, i < min n 64 → data.getD (i * 4 + 3) 0 = 0) :
    detectS24PackMode data n = S24PackMode.LsbAligned := by
  unfold detectS24PackMode
  dsimp only
  have ha : (List.range (min n 64)).all (fun i => data.getD (i * 4) 0 == 0) = false := by
    obtain ⟨i, hi, hne⟩ := h0
    rw [Bool.eq_false_iff]
    intro hall
    rw [List.all_eq_true] at hall
    have := hall i (List.mem_range.mpr hi)
    simp only [beq_iff_eq] at this
    exact hne this
  have hb : (List.range (min n 64)).all (fun i => data.getD (i * 4 + 3) 0 == 0) = true := by
    rw [List.all_eq_true]
    intro i hi
    rw [List.mem_range] at hi
    simpa using h3 i hi
  rw [ha, hb]
  rfl

theorem detectS24_deferred (data : List Nat) (n : Nat)
    (h0 : ∀ i, i < min n 64 → data.getD (i * 4) 0 = 0)
    (h3 : ∀ i, i < min n 64 → data.getD (i * 4 + 3) 0 = 0) :
    detectS24PackMode data n = S24PackMode.Deferred := by
  unfold detectS24PackMode
  dsimp only
  have ha : (List.range (min n 64)).all (fun i => data.getD (i * 4) 0 == 0) = true := by
    rw [List.all_eq_true]
    intro i hi
    rw [List.mem_range] at hi
    simpa using h0 i hi
  have hb : (List.range (min n 64)).all (fun i => data.getD (i * 4 + 3) 0 == 0) = true := by
    rw [List.all_eq_true]
    intro i hi
    rw [List.mem_range] at hi
    simpa using h3 i hi
  rw [ha, hb]
  rfl

theorem detectS24_ambiguous (data : List Nat) (n : Nat)
    (h0 : ∃ i, i < min n 64 ∧ data.getD (i * 4) 0 ≠ 0)
    (h3 : ∃ i, i < min n 64 ∧ data.getD (i * 4 + 3) 0 ≠ 0) :
    detectS24PackMode data n = S24PackMode.LsbAligned := by
  unfold detectS24PackMode
  dsimp only
  have ha : (List.range (min n 64)).all (fun i => data.getD (i * 4) 0 == 0) = false := by
    obtain ⟨i, hi, hne⟩ := h0
    rw [Bool.eq_false_iff]
    intro hall
    rw [List.all_eq_true] at hall
    have := hall i (List.mem_range.mpr hi)
    simp only [beq_iff_eq] at this
    exact hne this
  have hb : (List.range (min n 64)).all (fun i => data.getD (i * 4 + 3) 0 == 0) = false := by
    obtain ⟨i, hi, hne⟩ := h3
    rw [Bool.eq_false_iff]
    intro hall
    rw [List.all_eq_true] at hall
    have := hall i (List.mem_range.mpr hi)
    simp only [beq_iff_eq] at this
    exact hne this
  rw [ha, hb]
  rfl

theorem s24DetectUpdate_deferred (s : DirettaRingBuffer) (data : List Nat) (ns : Nat)
    (hmode : s.s24PackMode = S24PackMode.Deferred)
    (hdet : detectS24PackMode data ns = S24PackMode.Deferred) :
    (s.s24DetectUpdate data ns).deferredSampleCount = s.deferredSampleCount + ns ∧
    (s.deferredSampleCount + ns > DEFERRED_TIMEOUT_SAMPLES →
      (s.s24DetectUpdate data ns).s24PackMode
        = (if s.s24Hint ≠ S24PackMode.Unknown then s.s24Hint else S24PackMode.LsbAligned) ∧
      (s.s24DetectUpdate data ns).s24DetectionConfirmed = true) := by
  unfold DirettaRingBuffer.s24DetectUpdate
  rw [if_pos (Or.inr (Or.inl hmode))]
  dsimp only
  rw [hdet, if_neg (by simp)]
  split
  · next hgt => exact ⟨rfl, fun _ => ⟨rfl, rfl⟩⟩
  · next hle => exact ⟨rfl, fun hgt => absurd hgt hle⟩

theorem s24DetectUpdate_skip (s : DirettaRingBuffer) (data : List Nat) (ns : Nat)
    (hconf : s.s24DetectionConfirmed = true)
    (hmode : s.s24PackMode = S24PackMode.LsbAligned ∨
             s.s24PackMode = S24PackMode.MsbAligned) :
    s.s24DetectUpdate data ns = s := by
  have hcond : ¬ (s.s24PackMode = S24PackMode.Unknown ∨
      s.s24PackMode = S24PackMode.Deferred ∨
      (s.s24PackMode = s.s24Hint ∧ s.s24DetectionConfirmed = false)) := by
    rintro (h1 | h2 | ⟨h3, h4⟩)
    · rcases hmode with hm | hm <;> rw [hm] at h1 <;> exact absurd h1 (by decide)
    · rcases hmode with hm | hm <;> rw [hm] at h2 <;> exact absurd h2 (by decide)
    · rw [hconf] at h4
      exact absurd h4 (by decide)
  unfold DirettaRingBuffer.s24DetectUpdate
  rw [if_neg hcond]

theorem writeToRing_s24_fields (s : DirettaRingBuffer) (staged : List Nat) :
    (s.writeToRing staged).1.s24PackMode = s.s24PackMode ∧
    (s.writeToRing staged).1.s24DetectionConfirmed = s.s24DetectionConfirmed := by
  unfold DirettaRingBuffer.writeToRing
  dsimp only
  split
  · exact ⟨rfl, rfl⟩
  · split
    · exact ⟨rfl, rfl⟩
    · exact ⟨rfl, rfl⟩

theorem push24BitPacked_sticky (s : DirettaRingBuffer) (data : List Nat)
    (hconf : s.s24DetectionConfirmed = true)
    (hmode : s.s24PackMode = S24PackMode.LsbAligned ∨
             s.s24PackMode = S24PackMode.MsbAligned) :
    (s.push24BitPacked data).1.s24PackMode = s.s24PackMode ∧
    (s.push24BitPacked data).1.s24DetectionConfirmed = true := by
  unfold DirettaRingBuffer.push24BitPacked
  by_cases hsz : s.size = 0
  · rw [if_pos hsz]
    exact ⟨rfl, hconf⟩
  · rw [if_neg hsz]
    dsimp only
    by_cases h0 : data.length / 4 = 0
    · rw [if_pos h0]
      exact ⟨rfl, hconf⟩
    · rw [if_neg h0]
      by_cases hns : min (min (data.length / 4) (STAGING_SIZE / 3)) (s.getFreeSpace / 3) = 0
      · rw [if_pos hns]
        exact ⟨rfl, hconf⟩
      · rw [if_neg hns]
        dsimp only
        rw [s24DetectUpdate_skip s data _ hconf hmode]
        refine ⟨?_, ?_⟩
        · exact (writeToRing_s24_fields s _).1
        · rw [(writeToRing_s24_fields s _).2]
          exact hconf

/-- A fresh 4096-byte PCM ring for the S24 example. -/
def s24DemoRing : DirettaRingBuffer := emptyRing.resize 4096 0

/-- 256 S24-in-S32 samples with byte 3 always zero and byte 0 cycling
through 1..256 (value 256 wraps to byte 0x00 in the last sample). -/
def s24DemoData : List Nat :=
  (List.range 256).flatMap (fun i => [(i + 1) % 256, 0xB1, 0xB2, 0x00])

/-- The packed triples `[b0, b1, b2]` for the 256 demo samples. -/
def s24DemoPacked : List Nat :=
  (List.range 256).flatMap (fun i => [(i + 1) % 256, 0xB1, 0xB2])


theorem flatMap_quad_getD (f g h e : Nat → Nat) (n i j : Nat) (hi : i < n) (hj : j < 4) :
    ((List.range n).flatMap (fun m => [f m, g m, h m, e m])).getD (i * 4 + j) 0
      = [f i, g i, h i, e i].getD j 0 := by
  induction n with
  | zero => omega
  | succ m ih =>
    have hlen : ((List.range m).flatMap (fun m2 => [f m2, g m2, h m2, e m2])).length
        = m * 4 := flatMap_range_const_length m 4 _ (fun _ => rfl)
    rw [List.range_succ, List.flatMap_append]
    rcases Nat.lt_succ_iff_lt_or_eq.mp hi with hlt | heq
    · rw [List.getD_eq_getElem?_getD, List.getElem?_append_left (by rw [hlen]; omega),
          ← List.getD_eq_getElem?_getD]
      exact ih hlt
    · subst heq
      rw [List.getD_eq_getElem?_getD, List.getElem?_append_right (by rw [hlen]; omega),
          hlen]
      have hidx : i * 4 + j - i * 4 = j := by omega
      rw [hidx]
      have hsingle : ([i] : List Nat).flatMap (fun m2 => [f m2, g m2, h m2, e m2])
          = [f i, g i, h i, e i] := by simp
      rw [hsingle, ← List.getD_eq_getElem?_getD]

theorem s24DemoData_length : s24DemoData.length = 1024 := by
  unfold s24DemoData
  exact flatMap_range_const_length 256 4 _ (fun _ => rfl)

theorem s24DemoPacked_length : s24DemoPacked.length = 768 := by
  unfold s24DemoPacked
  exact flatMap_range_const_length 256 3 _ (fun _ => rfl)

theorem s24DemoData_getD (i j : Nat) (hi : i < 256) (hj : j < 4) :
    s24DemoData.getD (i * 4 + j) 0 = [(i + 1) % 256, 0xB1, 0xB2, 0].getD j 0 := by
  unfold s24DemoData
  exact flatMap_quad_getD (fun m => (m + 1) % 256) (fun _ => 0xB1) (fun _ => 0xB2)
    (fun _ => 0) 256 i j hi hj

theorem s24Demo_detect : detectS24PackMode s24DemoData 256 = S24PackMode.LsbAligned := by
  apply detectS24_lsb
  · exact ⟨0, by omega, by decide⟩
  · intro i hi
    have hi256 : i < 256 := by omega
    exact s24DemoData_getD i 3 hi256 (by omega)

theorem s24Demo_staged : convert24BitPacked s24DemoData 256 = s24DemoPacked := by
  unfold convert24BitPacked s24DemoPacked
  rw [List.flatMap_def, List.flatMap_def]
  apply congrArg List.flatten
  apply List.map_congr_left
  intro m hm
  rw [List.mem_range] at hm
  have h0 : s24DemoData.getD (m * 4) 0 = (m + 1) % 256 :=
    s24DemoData_getD m 0 hm (by omega)
  have h1 : s24DemoData.getD (m * 4 + 1) 0 = 0xB1 :=
    s24DemoData_getD m 1 hm (by omega)
  have h2 : s24DemoData.getD (m * 4 + 2) 0 = 0xB2 :=
    s24DemoData_getD m 2 hm (by omega)
  rw [h0, h1, h2]

/-- The ring state after the demo `push24BitPacked` call. -/
def s24PushedRing : DirettaRingBuffer :=
  { s24DemoRing with buffer := s24DemoPacked ++ List.replicate 3328 0,
                     writePos := 768, s24PackMode := S24PackMode.LsbAligned,
                     s24DetectionConfirmed := true, deferredSampleCount := 0 }

theorem s24DemoRing_buffer : s24DemoRing.buffer = List.replicate 4096 0 := rfl

theorem s24DemoRing_writePos : s24DemoRing.writePos = 0 := rfl

theorem s24DemoRing_readPos : s24DemoRing.readPos = 0 := rfl

theorem s24DemoRing_size : s24DemoRing.size = 4096 := rfl

theorem s24DemoRing_freeSpace : s24DemoRing.getFreeSpace = 4095 := by decide

theorem s24PushedRing_buffer :
    s24PushedRing.buffer = s24DemoPacked ++ List.replicate 3328 0 := rfl

theorem s24PushedRing_readPos : s24PushedRing.readPos = 0 := rfl

theorem s24PushedRing_size : s24PushedRing.size = 4096 := rfl

theorem s24Demo_push_eval :
    s24DemoRing.push24BitPacked s24DemoData = (s24PushedRing, 1024) := by
  have hupd : s24DemoRing.s24DetectUpdate s24DemoData 256
      = { s24DemoRing with s24PackMode := S24PackMode.LsbAligned,
                           s24DetectionConfirmed := true, deferredSampleCount := 0 } := by
    unfold DirettaRingBuffer.s24DetectUpdate
    rw [if_pos (Or.inl (by decide))]
    try dsimp only
    rw [s24Demo_detect, if_pos (by decide)]
  have hwrite : DirettaRingBuffer.writeToRing
      { s24DemoRing with s24PackMode := S24PackMode.LsbAligned,
                         s24DetectionConfirmed := true, deferredSampleCount := 0 }
      s24DemoPacked
      = (s24PushedRing, 768) := by
    unfold DirettaRingBuffer.writeToRing
    try dsimp only
    rw [s24DemoRing_buffer, List.length_replicate, s24DemoPacked_length,
        s24DemoRing_writePos, s24DemoRing_readPos]
    rw [if_neg (by decide)]
    rw [(by decide : ringAvailableForWrite 4096 0 0 = 4095)]
    rw [(by decide : min 768 4095 = 768)]
    rw [if_neg (by norm_num : ¬ (768 : Nat) = 0)]
    try dsimp only
    rw [(by decide : min 768 (4096 - 0) = 768)]
    rw [if_neg (by norm_num : ¬ 768 < 768)]
    rw [List.take_of_length_le (le_of_eq s24DemoPacked_length)]
    unfold listOverwrite
    rw [s24DemoPacked_length]
    rw [List.take_zero, List.nil_append]
    rw [(by norm_num : (0 + 768 : Nat) = 768), List.drop_replicate]
    rw [(by norm_num : (4096 - 768 : Nat) = 3328)]
    unfold DirettaRingBuffer.mask
    try dsimp only
    rw [s24DemoRing_size]
    rw [(by decide : (0 + 768 : Nat) &&& (4096 - 1) = 768)]
    unfold s24PushedRing
    rfl
  unfold DirettaRingBuffer.push24BitPacked
  rw [if_neg (by decide : ¬ s24DemoRing.size = 0)]
  try dsimp only
  rw [s24DemoData_length, s24DemoRing_freeSpace]
  rw [if_neg (by norm_num : ¬ (1024 / 4 : Nat) = 0)]
  rw [(by decide : min (min (1024 / 4) (STAGING_SIZE / 3)) ((4095 : Nat) / 3) = 256)]
  rw [if_neg (by norm_num : ¬ (256 : Nat) = 0)]
  try dsimp only
  rw [hupd]
  try dsimp only
  rw [if_neg (by decide : ¬ (S24PackMode.LsbAligned = S24PackMode.Deferred
        ∨ S24PackMode.LsbAligned = S24PackMode.Unknown))]
  rw [if_neg (by decide : ¬ S24PackMode.LsbAligned = S24PackMode.MsbAligned)]
  rw [s24Demo_staged, hwrite]
  norm_num

theorem s24Demo_pop_eval : (s24PushedRing.pop 768).2 = s24DemoPacked := by
  unfold DirettaRingBuffer.pop
  rw [if_neg (by decide : ¬ s24PushedRing.size = 0)]
  try dsimp only
  rw [(by decide : s24PushedRing.getAvailable = 768)]
  rw [(by decide : min 768 768 = 768)]
  rw [if_neg (by norm_num : ¬ (768 : Nat) = 0)]
  try dsimp only
  rw [s24PushedRing_readPos, s24PushedRing_size, s24PushedRing_buffer]
  rw [(by decide : min 768 ((4096 : Nat) - 0) = 768)]
  rw [List.drop_zero, List.take_left' s24DemoPacked_length]
  rw [(by norm_num : (768 - 768 : Nat) = 0), List.take_zero, List.append_nil]

/-- C3.  `push24BitPacked` detects the S24 pack mode on up to the first
64 samples of a call: byte 0 all zero with byte 3 varying commits
MsbAligned; byte 3 all zero with byte 0 varying commits LsbAligned; all
scanned bytes zero defers and accumulates a sample count that commits to
the hint (if set) else LsbAligned once it exceeds 48 000; both positions
varying commits LsbAligned; a committed (confirmed) non-deferred
decision is sticky across calls until `clear()`.  In particular 256
samples with byte 3 always zero and byte 0 cycling 1..256 commit
LsbAligned on the first call, consume all 1024 input bytes, and leave
the packed triples `[b0, b1, b2]` of every sample in the ring. -/
theorem C3_s24_pack_detection (data : List Nat) (n ns : Nat) (s : DirettaRingBuffer) :
    ((∀ i, i < min n 64 → data.getD (i * 4) 0 = 0) →
      (∃ i, i < min n 64 ∧ data.getD (i * 4 + 3) 0 ≠ 0) →
      detectS24PackMode data n = S24PackMode.MsbAligned) ∧
    ((∃ i, i < min n 64 ∧ data.getD (i * 4) 0 ≠ 0) →
      (∀ i, i < min n 64 → data.getD (i * 4 + 3) 0 = 0) →
      detectS24PackMode data n = S24PackMode.LsbAligned) ∧
    ((∀ i, i < min n 64 → data.getD (i * 4) 0 = 0) →
      (∀ i, i < min n 64 → data.getD (i * 4 + 3) 0 = 0) →
      detectS24PackMode data n = S24PackMode.Deferred) ∧
    ((∃ i, i < min n 64 ∧ data.getD (i * 4) 0 ≠ 0) →
      (∃ i, i < min n 64 ∧ data.getD (i * 4 + 3) 0 ≠ 0) →
      detectS24PackMode data n = S24PackMode.LsbAligned) ∧
    (s.s24PackMode = S24PackMode.Deferred →
      detectS24PackMode data ns = S24PackMode.Deferred →
      (s.s24DetectUpdate data ns).deferredSampleCount = s.deferredSampleCount + ns ∧
      (s.deferredSampleCount + ns > DEFERRED_TIMEOUT_SAMPLES →
        (s.s24DetectUpdate data ns).s24PackMode
          = (if s.s24Hint ≠ S24PackMode.Unknown then s.s24Hint else S24PackMode.LsbAligned) ∧
        (s.s24DetectUpdate data ns).s24DetectionConfirmed = true)) ∧
    (s.s24DetectionConfirmed = true →
      (s.s24PackMode = S24PackMode.LsbAligned ∨ s.s24PackMode = S24PackMode.MsbAligned) →
      (s.push24BitPacked data).1.s24PackMode = s.s24PackMode ∧
      (s.push24BitPacked data).1.s24DetectionConfirmed = true) ∧
    (s.clear.s24PackMode = S24PackMode.Unknown ∧
     s.clear.s24DetectionConfirmed = false) ∧
    ((s24DemoRing.push24BitPacked s24DemoData).1.s24PackMode = S24PackMode.LsbAligned ∧
     (s24DemoRing.push24BitPacked s24DemoData).1.s24DetectionConfirmed = true ∧
     (s24DemoRing.push24BitPacked s24DemoData).2 = 1024 ∧
     ((s24DemoRing.push24BitPacked s24DemoData).1.pop 768).2 = s24DemoPacked) := by
  refine ⟨detectS24_msb data n, ?_, detectS24_deferred data n, ?_,
          s24DetectUpdate_deferred s data ns, push24BitPacked_sticky s data,
          ⟨rfl, rfl⟩, ?_⟩
  · intro h0 h3
    exact detectS24_lsb data n h0 h3
  · intro h0 h3
    exact detectS24_ambiguous data n h0 h3
  · rw [s24Demo_push_eval, s24Demo_pop_eval]
    exact ⟨rfl, rfl, rfl, rfl⟩

/-- Witness for C3: the confirmed LSB-aligned state left by the demo
push keeps its decision across a further push. -/
theorem C3_s24_pack_detection_witness :
    s24PushedRing.s24DetectionConfirmed = true ∧
    (s24PushedRing.push24BitPacked [0, 0, 0, 0]).1.s24PackMode
      = s24PushedRing.s24PackMode :=
  ⟨rfl, ((C3_s24_pack_detection [0, 0, 0, 0] 0 0 s24PushedRing).2.2.2.2.2.1
     rfl (Or.inl rfl)).1⟩

/-- A fresh 16-byte DSD ring (silence 0x69) for the P5 vectors. -/
def dsdDemoRing : DirettaRingBuffer := emptyRing.resize 16 0x69

/-- The two-channel planar P5 input: L then R. -/
def dsdDemoData : List Nat := [0x80, 0x40, 0x20, 0x10, 0x01, 0x02, 0x04, 0x08]

/-- C4.  For the two-channel planar buffer `L = 80 40 20 10`,
`R = 01 02 04 08`, `pushDSDPlanarOptimized` interleaves the 4-byte
groups and applies the selected conversion exactly as P5 states:
Passthrough gives `80 40 20 10 01 02 04 08`, BitReverseOnly gives
`01 02 04 08 80 40 20 10`, ByteSwapOnly gives `10 20 40 80 08 04 02 01`,
BitReverseAndSwap gives `08 04 02 01 10 20 40 80`; each call consumes
all 8 input bytes. -/
theorem C4_dsd_conversion_vectors :
    ((dsdDemoRing.pushDSDPlanarOptimized dsdDemoData 2
        DSDConversionMode.Passthrough).1.pop 8).2
      = [0x80, 0x40, 0x20, 0x10, 0x01, 0x02, 0x04, 0x08] ∧
    ((dsdDemoRing.pushDSDPlanarOptimized dsdDemoData 2
        DSDConversionMode.BitReverseOnly).1.pop 8).2
      = [0x01, 0x02, 0x04, 0x08, 0x80, 0x40, 0x20, 0x10] ∧
    ((dsdDemoRing.pushDSDPlanarOptimized dsdDemoData 2
        DSDConversionMode.ByteSwapOnly).1.pop 8).2
      = [0x10, 0x20, 0x40, 0x80, 0x08, 0x04, 0x02, 0x01] ∧
    ((dsdDemoRing.pushDSDPlanarOptimized dsdDemoData 2
        DSDConversionMode.BitReverseAndSwap).1.pop 8).2
      = [0x08, 0x04, 0x02, 0x01, 0x10, 0x20, 0x40, 0x80] ∧
    (dsdDemoRing.pushDSDPlanarOptimized dsdDemoData 2
        DSDConversionMode.Passthrough).2 = 8 := by
  refine ⟨?_, ?_, ?_, ?_, ?_⟩ <;> decide
